import Mathlib

/-!
Shallow embedding of the request lifecycle / timeout / cancellation engine of
the human-in-the-loop MCP server (source: the MCP server implementation file,
class MCPServer).  JavaScript machine state (the pending-request Map, the
external-id Map, timers, intervals, the history store, the resolve calls) is
modelled explicitly; asynchronous callbacks (timer fires, disconnect signals,
HTTP completion) are adversary-scheduled events over a single-threaded step
function, mirroring Node's cooperative event loop.  Observable effects
(promise resolutions, UI callbacks) are recorded in append-only logs.
-/

namespace HITL

/-- JavaScript runtime values, as far as the validation code inspects them. -/
inductive JSValue where
  | str (s : String)
  | num (n : Int)
  | boolean (b : Bool)
  | null
  | undefinedV
  | arr (elems : List JSValue)
  | obj (fields : List (String × JSValue))

/-- Property access `o[key]` on a JS value: objects look the key up,
everything else yields `undefinedVined` (arrays have no such string props here). -/
def lookupField (key : String) : List (String × JSValue) → JSValue
  | [] => .undefinedV
  | (k, v) :: rest => if k = key then v else lookupField key rest

def getProp (v : JSValue) (key : String) : JSValue :=
  match v with
  | .obj fields => lookupField key fields
  | _ => .undefinedV

/-- JS truthiness (`Boolean(v)`); numbers are modelled as integers. -/
def truthy : JSValue → Bool
  | .str s => !s.isEmpty
  | .num n => !(n == 0)
  | .boolean b => b
  | .null => false
  | .undefinedV => false
  | .arr _ => true
  | .obj _ => true

/-- `a || b` on JS values. -/
def jsOr (a b : JSValue) : JSValue := if truthy a then a else b

-- Input validation constants (source lines 24-29)
def MAX_TITLE_LENGTH : Nat := 200
def MAX_MESSAGE_LENGTH : Nat := 50000
def MAX_PLACEHOLDER_LENGTH : Nat := 500
def MAX_OPTION_LABEL_LENGTH : Nat := 200
def MAX_OPTION_VALUE_LENGTH : Nat := 1000
def MAX_OPTIONS_COUNT : Nat := 50

/-- `s.slice(0, n)`: the first `n` characters of `s`. -/
def sliceTo (s : String) (n : Nat) : String := String.mk (s.data.take n)

/-- `validateString` (source lines 38-47): keep a string clamped to
`maxLength`, replace any non-string by the default. -/
def validateString (value : JSValue) (maxLength : Nat) (defaultValue : String) : String :=
  match value with
  | .str s => sliceTo s maxLength
  | _ => defaultValue

structure ButtonOption where
  label : String
  value : String
deriving DecidableEq

/-- `opt !== null && typeof opt === "object"` (arrays are objects in JS). -/
def isObjectLike : JSValue → Bool
  | .obj _ => true
  | .arr _ => true
  | _ => false

/-- `validateOptions` (source lines 54-72). -/
def validateOptions (options : JSValue) : List ButtonOption :=
  match options with
  | .arr xs =>
      (((xs.filter isObjectLike).take MAX_OPTIONS_COUNT).map
        (fun opt =>
          { label := validateString (getProp opt "label") MAX_OPTION_LABEL_LENGTH "Option"
            value := validateString (getProp opt "value") MAX_OPTION_VALUE_LENGTH "option"
            : ButtonOption })).filter
        (fun o => decide (0 < o.label.length) && decide (0 < o.value.length))
  | _ => []

/-- JSON-RPC request ids are strings or numbers (`Map<string | number, string>`). -/
inductive JsonId where
  | str (s : String)
  | num (n : Int)
deriving DecidableEq

inductive ToolType where
  | askUserText
  | askUserConfirm
  | askUserButtons
deriving DecidableEq

/-- The `ToolRequest` union, flattened: `placeholder` is only ever set for
text requests, `options` only for button requests.  Internal ids
(`crypto.randomUUID()`) are modelled as freshly allocated naturals. -/
structure ToolRequest where
  id : Nat
  ttype : ToolType
  title : String
  message : String
  placeholder : Option String
  options : List ButtonOption
  timestamp : Nat
  serverEndTime : Nat
deriving DecidableEq

/-- A user answer is a string or a boolean (`value: string | boolean`). -/
inductive RespValue where
  | str (s : String)
  | boolean (b : Bool)
deriving DecidableEq

/-- The `ToolResponse` passed to `resolve`. -/
structure ToolResponse where
  id : Nat
  success : Bool
  value : Option RespValue := none
  error : Option String := none
  timedOut : Bool := false
deriving DecidableEq

/-- Which closure a live `setTimeout` runs when it fires: the full
`timeoutHandler` armed at creation, or the reduced callback armed inside
`resumeRequest` (source lines 1430-1438). -/
inductive TimerKind where
  | creation
  | resumed
deriving DecidableEq

/-- A `PendingRequest` table entry (the `checkIntervalId` interval is tracked
globally by id since the underlying interval object outlives the entry;
`resolve`/`reject` are modelled by the resolution log). -/
structure PendingRequest where
  request : ToolRequest
  timeoutId : Option TimerKind
  remainingTime : Nat
  isPaused : Bool
  startTime : Nat
  totalTimeout : Nat
  jsonRpcId : Option JsonId
deriving DecidableEq

inductive HistoryStatus where
  | pending
  | answered
  | cancelled
  | timeout
deriving DecidableEq

/-- A history record (historyManager.ts); the fields the lifecycle touches. -/
structure HistoryEntry where
  requestId : Nat
  toolName : ToolType
  title : String
  message : String
  requestTime : Nat
  status : HistoryStatus
  responseTime : Option Nat := none
  response : Option RespValue := none
  error : Option String := none
deriving DecidableEq

def MAX_HISTORY_ENTRIES : Nat := 100

/-- `HistoryManager.addEntry`: unshift a pending record, trim to 100. -/
def addEntryList (history : List HistoryEntry) (request : ToolRequest) (now : Nat) :
    List HistoryEntry :=
  ({ requestId := request.id
     toolName := request.ttype
     title := request.title
     message := request.message
     requestTime := now
     status := .pending : HistoryEntry } :: history).take MAX_HISTORY_ENTRIES

/-- `HistoryManager.updateEntry`: mutate the first record with this requestId
(if any): set status and responseTime; set response only when provided; set
error only when a non-empty string (`if (error)` is a JS truthiness test). -/
def updateEntryList (history : List HistoryEntry) (requestId : Nat)
    (status : HistoryStatus) (response : Option RespValue) (error : Option String)
    (now : Nat) : List HistoryEntry :=
  match history with
  | [] => []
  | e :: rest =>
      if e.requestId = requestId then
        { e with
          status := status
          responseTime := some now
          response := match response with | some v => some v | none => e.response
          error := match error with
            | some s => if s.isEmpty then e.error else some s
            | none => e.error } :: rest
      else e :: updateEntryList rest requestId status response error now

/-- Association-list model of a JS `Map`: lookup by key. -/
def alookup {α β : Type} [DecidableEq α] (k : α) : List (α × β) → Option β
  | [] => none
  | (k', v) :: rest => if k' = k then some v else alookup k rest

/-- `Map.delete(k)`. -/
def aerase {α β : Type} [DecidableEq α] (k : α) : List (α × β) → List (α × β)
  | [] => []
  | p :: rest => if p.1 = k then aerase k rest else p :: aerase k rest

/-- `Map.set(k, v)` (overwrite). -/
def ainsert {α β : Type} [DecidableEq α] (k : α) (v : β) (l : List (α × β)) :
    List (α × β) :=
  (k, v) :: aerase k l

/-- The observable machine state of one `MCPServer` instance plus the history
store and the logs of its outward effects. -/
structure ServerState where
  now : Nat
  nextId : Nat
  serverRunning : Bool
  pendingRequests : List (Nat × PendingRequest)
  jsonRpcIdToRequestId : List (JsonId × Nat)
  history : List HistoryEntry
  /-- every `resolve(...)` call on a tools/call promise, in order -/
  resolvedLog : List ToolResponse
  /-- every `onRequestCancelledCallback(id, reason)` call, in order -/
  uiCancelled : List (Nat × String)
  /-- every `onRequestCallback(request)` delivery, by id -/
  uiDelivered : List Nat
  /-- ids whose disconnect-polling `setInterval` is currently armed -/
  intervalsArmed : List Nat
  /-- ids whose closure-local `disconnected` flag is set -/
  disconnectFired : List Nat
  /-- ids whose tools/call HTTP response has finished writing
  (`httpRes.writableFinished`) -/
  finishedResponses : List Nat
deriving DecidableEq

def initialState : ServerState :=
  { now := 0, nextId := 0, serverRunning := true, pendingRequests := []
    jsonRpcIdToRequestId := [], history := [], resolvedLog := []
    uiCancelled := [], uiDelivered := [], intervalsArmed := []
    disconnectFired := [], finishedResponses := [] }

/-- `clearInterval(checkIntervalId)` for a given request id. -/
def clearIntervalFor (s : ServerState) (requestId : Nat) : ServerState :=
  { s with intervalsArmed := s.intervalsArmed.filter (fun i => decide (i ≠ requestId)) }

/-- `deletePendingRequest` (source lines 603-609): remove the entry's
jsonRpcId from the translation map, then the entry itself. -/
def deletePendingRequest (s : ServerState) (requestId : Nat) : ServerState :=
  let s' :=
    match alookup requestId s.pendingRequests with
    | some pending =>
        match pending.jsonRpcId with
        | some j => { s with jsonRpcIdToRequestId := aerase j s.jsonRpcIdToRequestId }
        | none => s
    | none => s
  { s' with pendingRequests := aerase requestId s'.pendingRequests }

/-- `handleUserResponse` (source lines 614-636). -/
def handleUserResponse (s : ServerState) (requestId : Nat) (value : RespValue) :
    ServerState :=
  match alookup requestId s.pendingRequests with
  | none => s
  | some _ =>
      -- clearTimeout / clearInterval, delete, record history, resolve
      let s1 := clearIntervalFor s requestId
      let s2 := deletePendingRequest s1 requestId
      let s3 := { s2 with
        history := updateEntryList s2.history requestId .answered (some value) none s2.now }
      { s3 with resolvedLog := s3.resolvedLog ++
          [{ id := requestId, success := true, value := some value }] }

/-- The `timeoutHandler` closure armed at creation (source lines 1184-1209). -/
def timeoutHandler (s : ServerState) (requestId : Nat) : ServerState :=
  let s1 := clearIntervalFor s requestId
  let s2 := deletePendingRequest s1 requestId
  let s3 := { s2 with
    history := updateEntryList s2.history requestId .timeout none
      (some "Request timed out") s2.now }
  let s4 := { s3 with uiCancelled := s3.uiCancelled ++ [(requestId, "Request timed out")] }
  { s4 with resolvedLog := s4.resolvedLog ++
      [{ id := requestId, success := false, timedOut := true
         error := some "Request timed out waiting for user response" }] }

/-- The reduced timeout callback armed inside `resumeRequest`
(source lines 1430-1438): it only deletes the entry and resolves — it does
not clear the polling interval, update history, or notify the UI. -/
def resumedTimeoutFire (s : ServerState) (requestId : Nat) : ServerState :=
  let s1 := deletePendingRequest s requestId
  { s1 with resolvedLog := s1.resolvedLog ++
      [{ id := requestId, success := false, timedOut := true
         error := some "Request timed out waiting for user response" }] }

/-- `reason || "Request cancelled by agent"` for an optional string reason. -/
def reasonOr (reason : Option String) : String :=
  match reason with
  | none => "Request cancelled by agent"
  | some r => if r.isEmpty then "Request cancelled by agent" else r

/-- `handleCancellation` (source lines 829-893), after the requestId has been
coerced to a map key (non-id-shaped values can never hit a map entry). -/
def handleCancellation (s : ServerState) (jsonRpcRequestId : Option JsonId)
    (reason : Option String) : ServerState :=
  match jsonRpcRequestId with
  | none => s
  | some jid =>
      match alookup jid s.jsonRpcIdToRequestId with
      | none => s
      | some internalRequestId =>
          match alookup internalRequestId s.pendingRequests with
          | none => s
          | some _ =>
              let r := reasonOr reason
              let s1 := clearIntervalFor s internalRequestId
              let s2 := deletePendingRequest s1 internalRequestId
              let s3 := { s2 with
                history := updateEntryList s2.history internalRequestId .cancelled
                  none (some r) s2.now }
              let s4 := { s3 with uiCancelled := s3.uiCancelled ++ [(internalRequestId, r)] }
              { s4 with resolvedLog := s4.resolvedLog ++
                  [{ id := internalRequestId, success := false, error := some r }] }

/-- `handleDisconnect` (source lines 1219-1259): once-only flag, the
already-transmitted guard, interval teardown, then the guarded settlement. -/
def handleDisconnect (s : ServerState) (requestId : Nat) (source : String) :
    ServerState :=
  if s.disconnectFired.contains requestId || s.finishedResponses.contains requestId then
    s
  else
    let s0 := { s with disconnectFired := requestId :: s.disconnectFired }
    let s1 := clearIntervalFor s0 requestId
    match alookup requestId s1.pendingRequests with
    | none => s1
    | some _ =>
        let s2 := deletePendingRequest s1 requestId
        let s3 := { s2 with
          history := updateEntryList s2.history requestId .cancelled none
            (some ("Agent disconnected (" ++ source ++ ")")) s2.now }
        let s4 := { s3 with uiCancelled := s3.uiCancelled ++ [(requestId, "Agent disconnected")] }
        { s4 with resolvedLog := s4.resolvedLog ++
            [{ id := requestId, success := false
               error := some "Agent disconnected before user responded" }] }

/-- `_stopInternal` (source lines 554-584), in the server-present branch:
clear every pending entry's timer and interval, resolve each with the generic
stopped failure, then wipe both tables. -/
def stopInternal (s : ServerState) : ServerState :=
  if s.serverRunning then
    { s with
      serverRunning := false
      intervalsArmed := s.intervalsArmed.filter
        (fun i => (alookup i s.pendingRequests).isNone)
      resolvedLog := s.resolvedLog ++ s.pendingRequests.map
        (fun q => { id := q.1, success := false, error := some "Server stopped" })
      pendingRequests := []
      jsonRpcIdToRequestId := [] }
  else s

/-- The argument fields `handleToolCall` reads off `args || {}`. -/
structure ToolCallArgs where
  title : JSValue := .undefinedV
  prompt : JSValue := .undefinedV
  message : JSValue := .undefinedV
  placeholder : JSValue := .undefinedV
  options : JSValue := .undefinedV

def noArgs : ToolCallArgs := {}

/-- The `switch (name)` of `handleToolCall` (source lines 1112-1178) that
builds the validated `ToolRequest`; `none` is the `default` branch (the
"Unknown tool" error result, which creates no pending entry).  The
placeholder call passes an explicit `undefinedVined` default, so TypeScript's
declared default `""` applies. -/
def buildToolRequest (name : String) (safeArgs : ToolCallArgs) (requestId : Nat)
    (now : Nat) (serverEndTime : Nat) : Option ToolRequest :=
  match name with
  | "ask_user_text" => some
      { id := requestId
        ttype := .askUserText
        title := validateString safeArgs.title MAX_TITLE_LENGTH "Input Required"
        message := validateString (jsOr safeArgs.prompt safeArgs.message)
          MAX_MESSAGE_LENGTH ""
        placeholder := some (validateString safeArgs.placeholder
          MAX_PLACEHOLDER_LENGTH "")
        options := []
        timestamp := now
        serverEndTime := serverEndTime }
  | "ask_user_confirm" => some
      { id := requestId
        ttype := .askUserConfirm
        title := validateString safeArgs.title MAX_TITLE_LENGTH "Confirmation Required"
        message := validateString safeArgs.message MAX_MESSAGE_LENGTH ""
        placeholder := none
        options := []
        timestamp := now
        serverEndTime := serverEndTime }
  | "ask_user_buttons" => some
      { id := requestId
        ttype := .askUserButtons
        title := validateString safeArgs.title MAX_TITLE_LENGTH "Selection Required"
        message := validateString safeArgs.message MAX_MESSAGE_LENGTH ""
        placeholder := none
        options := validateOptions safeArgs.options
        timestamp := now
        serverEndTime := serverEndTime }
  | _ => none

/-- The synchronous creation part of `handleToolCall` (source lines
1086-1334): map the JSON-RPC id, validate, insert the pending entry, arm the
timeout (only when the configured timeout is positive) and the disconnect
polling interval, open the history record, deliver to the UI.  `timeoutSec`
is the configured timeout in seconds read at call time. -/
def handleToolCall (s : ServerState) (name : String) (args : ToolCallArgs)
    (timeoutSec : Nat) (jsonRpcId : Option JsonId) : ServerState :=
  let timeout := timeoutSec * 1000
  let requestId := s.nextId
  let s0 := { s with nextId := s.nextId + 1 }
  let s1 :=
    match jsonRpcId with
    | some j => { s0 with jsonRpcIdToRequestId := ainsert j requestId s0.jsonRpcIdToRequestId }
    | none => s0
  let serverEndTime := if 0 < timeout then s.now + timeout else 0
  match buildToolRequest name args requestId s.now serverEndTime with
  | none => s1
  | some toolRequest =>
      let pending : PendingRequest :=
        { request := toolRequest
          timeoutId := if 0 < timeout then some .creation else none
          remainingTime := timeout
          isPaused := false
          startTime := s.now
          totalTimeout := timeout
          jsonRpcId := jsonRpcId }
      let s2 := { s1 with
        pendingRequests := ainsert requestId pending s1.pendingRequests
        intervalsArmed := requestId :: s1.intervalsArmed }
      let s3 := { s2 with history := addEntryList s2.history toolRequest s2.now }
      { s3 with uiDelivered := s3.uiDelivered ++ [requestId] }

/-- `pauseRequest` (source lines 1397-1415).  `Math.max(0, a - b)` over
integers is truncated subtraction on naturals. -/
def pauseRequest (s : ServerState) (requestId : Nat) : Bool × ServerState :=
  match alookup requestId s.pendingRequests with
  | none => (false, s)
  | some pending =>
      if pending.isPaused then (false, s)
      else
        let elapsed := s.now - pending.startTime
        let pending' := { pending with
          timeoutId := none
          remainingTime := pending.remainingTime - elapsed
          isPaused := true }
        (true, { s with pendingRequests := ainsert requestId pending' s.pendingRequests })

/-- `resumeRequest` (source lines 1422-1445): a new timer is armed only when
both the frozen remaining time and the total timeout are positive. -/
def resumeRequest (s : ServerState) (requestId : Nat) : Bool × ServerState :=
  match alookup requestId s.pendingRequests with
  | none => (false, s)
  | some pending =>
      if pending.isPaused then
        let pending' := { pending with
          timeoutId :=
            if 0 < pending.remainingTime ∧ 0 < pending.totalTimeout then
              some .resumed
            else pending.timeoutId
          startTime := s.now
          isPaused := false }
        (true, { s with pendingRequests := ainsert requestId pending' s.pendingRequests })
      else (false, s)

/-- The adversary-scheduled events: everything that can re-enter the
single-threaded server between suspension points. -/
inductive Event where
  | toolCall (t : Nat) (name : String) (args : ToolCallArgs) (timeoutSec : Nat)
      (jsonRpcId : Option JsonId)
  | userResponse (t : Nat) (id : Nat) (value : RespValue)
  | timerFire (t : Nat) (id : Nat)
  | cancelNotif (t : Nat) (requestId : Option JsonId) (reason : Option String)
  | disconnect (t : Nat) (id : Nat) (source : String)
  | httpFinish (id : Nat)
  | serverStop (t : Nat)
  | pauseReq (t : Nat) (id : Nat)
  | resumeReq (t : Nat) (id : Nat)

/-- Wall clock advance (`Date.now()` is monotone). -/
def advanceNow (s : ServerState) (t : Nat) : ServerState := { s with now := max s.now t }

/-- One event dispatched against the server.  A `setTimeout` callback can run
only while its timer is armed (every settlement path calls `clearTimeout`
before the entry is gone) and no earlier than its due time; which closure it
runs depends on who armed it. -/
def step (s : ServerState) (e : Event) : ServerState :=
  match e with
  | .toolCall t name args timeoutSec jsonRpcId =>
      let s := advanceNow s t
      if s.serverRunning then handleToolCall s name args timeoutSec jsonRpcId else s
  | .userResponse t id value => handleUserResponse (advanceNow s t) id value
  | .timerFire t id =>
      let s := advanceNow s t
      match alookup id s.pendingRequests with
      | some pending =>
          match pending.timeoutId with
          | some kind =>
              if pending.startTime + pending.remainingTime ≤ s.now then
                match kind with
                | .creation => timeoutHandler s id
                | .resumed => resumedTimeoutFire s id
              else s
          | none => s
      | none => s
  | .cancelNotif t requestId reason => handleCancellation (advanceNow s t) requestId reason
  | .disconnect t id source => handleDisconnect (advanceNow s t) id source
  | .httpFinish id =>
      if s.resolvedLog.any (fun r => decide (r.id = id)) then
        { s with finishedResponses := id :: s.finishedResponses }
      else s
  | .serverStop t => stopInternal (advanceNow s t)
  | .pauseReq t id => (pauseRequest (advanceNow s t) id).2
  | .resumeReq t id => (resumeRequest (advanceNow s t) id).2

def run (s : ServerState) (es : List Event) : ServerState := es.foldl step s

def Reachable (s : ServerState) : Prop := ∃ es, s = run initialState es

/-! ## Protocol dispatcher -/

/-- An inbound JSON-RPC envelope: the four destructured fields. -/
structure JsonRpcEnvelope where
  jsonrpc : JSValue := .undefinedV
  id : JSValue := .undefinedV
  method : JSValue := .undefinedV
  params : JSValue := .undefinedV

/-- The reply `processJsonRpc` produces (static result payloads elided; a
tools/call reply is deferred until the created request settles). -/
inductive RpcReply where
  | ok (id : JSValue)
  | err (id : JSValue) (code : Int) (message : String)
  | deferredToolResult (id : JSValue) (internalId : Nat)

/-- A JSON-RPC envelope id becomes a translation-map key only when it is a
string or a number. -/
def toJsonId : JSValue → Option JsonId
  | .str s => some (.str s)
  | .num n => some (.num n)
  | _ => none

/-- Project `params.arguments` (or `args || {}`) onto the fields read. -/
def toToolCallArgs (args : JSValue) : ToolCallArgs :=
  let safe := if truthy args then args else .obj []
  { title := getProp safe "title"
    prompt := getProp safe "prompt"
    message := getProp safe "message"
    placeholder := getProp safe "placeholder"
    options := getProp safe "options" }

/-- `processJsonRpc` (source lines 766-824): reject any envelope whose
`jsonrpc` is not exactly the string "2.0" with -32600 echoing its id, else
dispatch on `method`; unknown methods get -32601.  `timeoutSec` is the
configuration value `tools/call` would read. -/
def processJsonRpc (s : ServerState) (env : JsonRpcEnvelope) (timeoutSec : Nat) :
    ServerState × RpcReply :=
  match env.jsonrpc with
  | .str v =>
      if v = "2.0" then
        match env.method with
        | .str "initialize" => (s, .ok env.id)
        | .str "notifications/initialized" => (s, .ok env.id)
        | .str "notifications/cancelled" =>
            (handleCancellation s
              (match getProp env.params "requestId" with
               | .undefinedV => none
               | v => toJsonId v)
              (match getProp env.params "reason" with
               | .str r => some r
               | _ => none), .ok env.id)
        | .str "tools/list" => (s, .ok env.id)
        | .str "tools/call" =>
            let name := match getProp env.params "name" with | .str n => n | _ => ""
            let s' := handleToolCall s name
              (toToolCallArgs (getProp env.params "arguments")) timeoutSec
              (toJsonId env.id)
            (s', .deferredToolResult env.id s.nextId)
        | _ => (s, .err env.id (-32601) "Method not found")
      else (s, .err env.id (-32600) "Invalid Request")
  | _ => (s, .err env.id (-32600) "Invalid Request")

/-! ## HTTP body accumulation (`handleMCPRequest`, source lines 696-761) -/

def MAX_BODY_SIZE : Nat := 1024 * 1024

structure BodyState where
  body : String
  aborted : Bool
deriving DecidableEq

/-- One `req.on("data")` callback: ignore chunks after abort, append, abort
with the 413 reply once the accumulated body exceeds the cap. -/
def onDataChunk (st : BodyState) (chunk : String) : BodyState :=
  if st.aborted then st
  else
    let body' := st.body ++ chunk
    if MAX_BODY_SIZE < body'.length then { body := body', aborted := true }
    else { body := body', aborted := false }

def receiveBody (chunks : List String) : BodyState :=
  chunks.foldl onDataChunk { body := "", aborted := false }

/-- What the `end` handler observes. -/
inductive BodyOutcome where
  | rejected413 (code : Int) (message : String)
  | toParse (body : String)
deriving DecidableEq

/-- The request-body phase of `handleMCPRequest`: an aborted request was
already answered 413 with the -32600 size error and never reaches
`JSON.parse`; otherwise the full body goes to parsing. -/
def handleMCPRequestBody (chunks : List String) : BodyOutcome :=
  let st := receiveBody chunks
  if st.aborted then .rejected413 (-32600) "Request body too large"
  else .toParse st.body

/-- The whole request path, parameterized by the JSON parser: a body that
tripped the cap yields 413 with the server state untouched, whatever the
parser would have said. -/
def handleMCPRequest (parse : String → Option JsonRpcEnvelope) (timeoutSec : Nat)
    (s : ServerState) (chunks : List String) :
    ServerState × Option RpcReply :=
  match handleMCPRequestBody chunks with
  | .rejected413 _ _ => (s, none)
  | .toParse body =>
      match parse body with
      | none => (s, some (.err .null (-32700) "Parse error"))
      | some env =>
          let (s', r) := processJsonRpc s env timeoutSec
          (s', some r)

/-- The ids in resolution order: who has ever been settled. -/
def resolvedIds (s : ServerState) : List Nat := s.resolvedLog.map (fun r => r.id)

/-- The three tool names `handleToolCall` recognizes. -/
def KnownName (name : String) : Prop :=
  name = "ask_user_text" ∨ name = "ask_user_confirm" ∨ name = "ask_user_buttons"

/-- An event whose tools/call (if it is one) uses a recognized tool name. -/
def eventKnown : Event → Prop
  | .toolCall _ name _ _ _ => KnownName name
  | _ => True

def KnownTrace (es : List Event) : Prop := ∀ e ∈ es, eventKnown e

/-- No dangling cross-reference: every translation-map pair points at a live
pending entry that carries exactly that external id. -/
def InvMap (s : ServerState) : Prop :=
  ∀ j i, (j, i) ∈ s.jsonRpcIdToRequestId →
    ∃ p, alookup i s.pendingRequests = some p ∧ p.jsonRpcId = some j

/-! ## Pause/resume cycle bookkeeping (for the drift-free accounting) -/

/-- Pause at `p`, resume at `r`, for each cycle; every pause lands while the
request is running and strictly before its armed deadline. -/
def timelyB (start rem : Nat) : List (Nat × Nat) → Bool
  | [] => true
  | (p, r) :: rest =>
      decide (start ≤ p) && decide (p - start < rem) && decide (p ≤ r) &&
        timelyB r (rem - (p - start)) rest

/-- Total running time consumed by the completed cycles. -/
def consumed (start : Nat) : List (Nat × Nat) → Nat
  | [] => 0
  | (p, r) :: rest => (p - start) + consumed r rest

/-- The moment the request was last set running. -/
def lastResume (start : Nat) : List (Nat × Nat) → Nat
  | [] => start
  | (_, r) :: rest => lastResume r rest

/-- The pause/resume events a cycle list denotes for a given request id. -/
def cycleEvents (id : Nat) : List (Nat × Nat) → List Event
  | [] => []
  | (p, r) :: rest => .pauseReq p id :: .resumeReq r id :: cycleEvents id rest

/-! ## Body-accumulation bookkeeping -/

/-- Concatenation of a chunk list (`body += chunk` repeatedly). -/
def joinAll : List String → String
  | [] => ""
  | c :: cs => c ++ joinAll cs

/-- Concatenation of the first `k` chunks. -/
def joinTake (chunks : List String) (k : Nat) : String := joinAll (chunks.take k)

/-! ## Association-list lemmas -/

section AssocLemmas

variable {α β : Type} [DecidableEq α]

theorem mem_aerase {l : List (α × β)} {k : α} {p : α × β} :
    p ∈ aerase k l ↔ p ∈ l ∧ p.1 ≠ k := by
  induction l with
  | nil => simp [aerase]
  | cons q rest ih =>
      by_cases hq : q.1 = k
      · rw [aerase, if_pos hq]
        simp only [List.mem_cons, ih]
        constructor
        · rintro ⟨hp, hpk⟩
          exact ⟨Or.inr hp, hpk⟩
        · rintro ⟨hp | hp, hpk⟩
          · exact absurd (hp ▸ hq) hpk
          · exact ⟨hp, hpk⟩
      · rw [aerase, if_neg hq]
        simp only [List.mem_cons, ih]
        constructor
        · rintro (hp | ⟨hp, hpk⟩)
          · exact ⟨Or.inl hp, hp ▸ hq⟩
          · exact ⟨Or.inr hp, hpk⟩
        · rintro ⟨hp | hp, hpk⟩
          · exact Or.inl hp
          · exact Or.inr ⟨hp, hpk⟩

theorem alookup_eq_none {l : List (α × β)} {k : α} :
    alookup k l = none ↔ k ∉ l.map Prod.fst := by
  induction l with
  | nil => simp [alookup]
  | cons p rest ih =>
      by_cases h : p.1 = k
      · simp [alookup, h]
      · simp only [alookup, if_neg h, List.map_cons, List.mem_cons, ih]
        constructor
        · intro hk hmem
          rcases hmem with hc | hc
          · exact h hc.symm
          · exact hk hc
        · intro hk hc
          exact hk (Or.inr hc)

theorem mem_of_alookup {l : List (α × β)} {k : α} {v : β}
    (h : alookup k l = some v) : (k, v) ∈ l := by
  induction l with
  | nil => simp [alookup] at h
  | cons p rest ih =>
      by_cases hp : p.1 = k
      · rw [alookup, if_pos hp] at h
        cases p with
        | mk a b =>
            cases hp
            cases Option.some.inj h
            exact List.mem_cons_self _ _
      · rw [alookup, if_neg hp] at h
        exact List.mem_cons_of_mem _ (ih h)

theorem mem_keys_of_alookup {l : List (α × β)} {k : α} {v : β}
    (h : alookup k l = some v) : k ∈ l.map Prod.fst :=
  List.mem_map_of_mem Prod.fst (mem_of_alookup h)

theorem aerase_of_not_mem {l : List (α × β)} {k : α}
    (h : k ∉ l.map Prod.fst) : aerase k l = l := by
  induction l with
  | nil => rfl
  | cons p rest ih =>
      simp only [List.map_cons, List.mem_cons] at h
      push_neg at h
      rw [aerase, if_neg (fun hc => h.1 hc.symm), ih h.2]

theorem alookup_aerase_self (k : α) (l : List (α × β)) :
    alookup k (aerase k l) = none := by
  rw [alookup_eq_none]
  intro hk
  rcases List.mem_map.1 hk with ⟨p, hp, hfst⟩
  exact (mem_aerase.1 hp).2 hfst

theorem alookup_aerase_ne {k' k : α} (h : k' ≠ k) (l : List (α × β)) :
    alookup k' (aerase k l) = alookup k' l := by
  induction l with
  | nil => rfl
  | cons p rest ih =>
      by_cases hp : p.1 = k
      · rw [aerase, if_pos hp, ih, alookup, if_neg (fun hc : p.1 = k' => h (hc ▸ hp))]
      · rw [aerase, if_neg hp, alookup, alookup]
        by_cases hpk : p.1 = k'
        · rw [if_pos hpk, if_pos hpk]
        · rw [if_neg hpk, if_neg hpk]
          exact ih

theorem alookup_ainsert_self (k : α) (v : β) (l : List (α × β)) :
    alookup k (ainsert k v l) = some v := by
  simp [ainsert, alookup]

theorem alookup_ainsert_ne {k' k : α} (h : k' ≠ k) (v : β) (l : List (α × β)) :
    alookup k' (ainsert k v l) = alookup k' l := by
  show (if k = k' then some v else alookup k' (aerase k l)) = alookup k' l
  rw [if_neg (fun hc => h hc.symm)]
  exact alookup_aerase_ne h l

theorem keys_ainsert (k : α) (v : β) (l : List (α × β)) :
    (ainsert k v l).map Prod.fst = k :: (aerase k l).map Prod.fst := rfl

theorem mem_ainsert {l : List (α × β)} {k : α} {v : β} {p : α × β} :
    p ∈ ainsert k v l ↔ p = (k, v) ∨ (p ∈ l ∧ p.1 ≠ k) := by
  simp [ainsert, List.mem_cons, mem_aerase]

theorem not_mem_keys_aerase_self (k : α) (l : List (α × β)) :
    k ∉ (aerase k l).map Prod.fst := by
  intro hk
  rcases List.mem_map.1 hk with ⟨p, hp, hfst⟩
  exact (mem_aerase.1 hp).2 hfst

theorem mem_keys_aerase {l : List (α × β)} {k x : α} :
    x ∈ (aerase k l).map Prod.fst ↔ x ∈ l.map Prod.fst ∧ x ≠ k := by
  constructor
  · intro hx
    rcases List.mem_map.1 hx with ⟨p, hp, hfst⟩
    rcases mem_aerase.1 hp with ⟨hpl, hpk⟩
    exact ⟨hfst ▸ List.mem_map_of_mem Prod.fst hpl, hfst ▸ hpk⟩
  · rintro ⟨hx, hxk⟩
    rcases List.mem_map.1 hx with ⟨p, hp, hfst⟩
    exact hfst ▸ List.mem_map_of_mem Prod.fst (mem_aerase.2 ⟨hp, hfst ▸ hxk⟩)

theorem nodup_keys_aerase {l : List (α × β)} {k : α}
    (h : (l.map Prod.fst).Nodup) : ((aerase k l).map Prod.fst).Nodup := by
  induction l with
  | nil => simp [aerase]
  | cons p rest ih =>
      simp only [List.map_cons, List.nodup_cons] at h
      by_cases hp : p.1 = k
      · rw [aerase, if_pos hp]
        exact ih h.2
      · rw [aerase, if_neg hp]
        simp only [List.map_cons, List.nodup_cons]
        exact ⟨fun hc => h.1 (mem_keys_aerase.1 hc).1, ih h.2⟩

end AssocLemmas

/-! ## Handler characterizations -/

theorem deletePendingRequest_eq (s : ServerState) (i : Nat) :
    deletePendingRequest s i =
      { s with
        pendingRequests := aerase i s.pendingRequests
        jsonRpcIdToRequestId :=
          match alookup i s.pendingRequests with
          | some p =>
              match p.jsonRpcId with
              | some j => aerase j s.jsonRpcIdToRequestId
              | none => s.jsonRpcIdToRequestId
          | none => s.jsonRpcIdToRequestId } := by
  cases h : alookup i s.pendingRequests with
  | none => simp [deletePendingRequest, h]
  | some p =>
      cases hj : p.jsonRpcId with
      | none => simp [deletePendingRequest, h, hj]
      | some j => simp [deletePendingRequest, h, hj]

/-- The inductive invariant of the correlation engine: fresh ids really are
fresh, the pending table has no duplicate keys, nobody pending was ever
settled, nobody was ever settled twice, and per-entry timing facts. -/
structure InvCore (s : ServerState) : Prop where
  keysLt : ∀ k ∈ s.pendingRequests.map Prod.fst, k < s.nextId
  resolvedLt : ∀ i ∈ resolvedIds s, i < s.nextId
  keysNodup : (s.pendingRequests.map Prod.fst).Nodup
  pendingUnresolved : ∀ k ∈ s.pendingRequests.map Prod.fst, k ∉ resolvedIds s
  resolvedNodup : (resolvedIds s).Nodup
  startTimeLe : ∀ q ∈ s.pendingRequests, (q : Nat × PendingRequest).2.startTime ≤ s.now
  remLe : ∀ q ∈ s.pendingRequests,
    (q : Nat × PendingRequest).2.remainingTime ≤ q.2.totalTimeout
  zeroNoTimer : ∀ q ∈ s.pendingRequests,
    (q : Nat × PendingRequest).2.totalTimeout = 0 → q.2.timeoutId = none

theorem invCore_congr {s s' : ServerState} (h : InvCore s)
    (hpend : s'.pendingRequests = s.pendingRequests)
    (hlog : s'.resolvedLog = s.resolvedLog)
    (hnext : s.nextId ≤ s'.nextId) (hnow : s.now ≤ s'.now) : InvCore s' := by
  have hids : resolvedIds s' = resolvedIds s := by rw [resolvedIds, hlog, resolvedIds]
  constructor
  · intro k hk
    rw [hpend] at hk
    exact lt_of_lt_of_le (h.keysLt k hk) hnext
  · intro i hi
    rw [hids] at hi
    exact lt_of_lt_of_le (h.resolvedLt i hi) hnext
  · rw [hpend]; exact h.keysNodup
  · intro k hk
    rw [hpend] at hk
    rw [hids]
    exact h.pendingUnresolved k hk
  · rw [hids]; exact h.resolvedNodup
  · intro q hq
    rw [hpend] at hq
    exact le_trans (h.startTimeLe q hq) hnow
  · intro q hq
    rw [hpend] at hq
    exact h.remLe q hq
  · intro q hq
    rw [hpend] at hq
    exact h.zeroNoTimer q hq

theorem invCore_settle {s s' : ServerState} {i : Nat} (h : InvCore s)
    (hi : i ∈ s.pendingRequests.map Prod.fst)
    (hpend : s'.pendingRequests = aerase i s.pendingRequests)
    (hids : resolvedIds s' = resolvedIds s ++ [i])
    (hnext : s'.nextId = s.nextId) (hnow : s.now ≤ s'.now) : InvCore s' := by
  constructor
  · intro k hk
    rw [hpend] at hk
    rw [hnext]
    exact h.keysLt k (mem_keys_aerase.1 hk).1
  · intro x hx
    rw [hids, List.mem_append] at hx
    rw [hnext]
    rcases hx with hx | hx
    · exact h.resolvedLt x hx
    · rw [List.mem_singleton] at hx
      exact hx ▸ h.keysLt i hi
  · rw [hpend]
    exact nodup_keys_aerase h.keysNodup
  · intro k hk
    rw [hpend, mem_keys_aerase] at hk
    rw [hids]
    intro hc
    rw [List.mem_append] at hc
    rcases hc with hc | hc
    · exact h.pendingUnresolved k hk.1 hc
    · rw [List.mem_singleton] at hc
      exact hk.2 hc
  · rw [hids]
    refine List.Nodup.append h.resolvedNodup (List.nodup_singleton i) ?_
    intro a ha hb
    rw [List.mem_singleton] at hb
    exact h.pendingUnresolved i hi (hb ▸ ha)
  · intro q hq
    rw [hpend] at hq
    exact le_trans (h.startTimeLe q (mem_aerase.1 hq).1) hnow
  · intro q hq
    rw [hpend] at hq
    exact h.remLe q (mem_aerase.1 hq).1
  · intro q hq
    rw [hpend] at hq
    exact h.zeroNoTimer q (mem_aerase.1 hq).1

theorem invCore_insertFresh {s s' : ServerState} {pen : PendingRequest} (h : InvCore s)
    (hpend : s'.pendingRequests = ainsert s.nextId pen s.pendingRequests)
    (hlog : s'.resolvedLog = s.resolvedLog)
    (hnext : s'.nextId = s.nextId + 1) (hnow : s'.now = s.now)
    (hstart : pen.startTime ≤ s.now)
    (hrem : pen.remainingTime ≤ pen.totalTimeout)
    (hzero : pen.totalTimeout = 0 → pen.timeoutId = none) : InvCore s' := by
  have hids : resolvedIds s' = resolvedIds s := by rw [resolvedIds, hlog, resolvedIds]
  have hkeys : s'.pendingRequests.map Prod.fst =
      s.nextId :: (aerase s.nextId s.pendingRequests).map Prod.fst := by
    rw [hpend, keys_ainsert]
  constructor
  · intro k hk
    rw [hkeys, List.mem_cons] at hk
    rw [hnext]
    rcases hk with hk | hk
    · omega
    · have := h.keysLt k (mem_keys_aerase.1 hk).1
      omega
  · intro x hx
    rw [hids] at hx
    rw [hnext]
    have := h.resolvedLt x hx
    omega
  · rw [hkeys]
    exact List.nodup_cons.2 ⟨not_mem_keys_aerase_self _ _,
      nodup_keys_aerase h.keysNodup⟩
  · intro k hk
    rw [hkeys, List.mem_cons] at hk
    rw [hids]
    rcases hk with hk | hk
    · intro hc
      have := h.resolvedLt k hc
      omega
    · exact h.pendingUnresolved k (mem_keys_aerase.1 hk).1
  · rw [hids]; exact h.resolvedNodup
  · intro q hq
    rw [hpend] at hq
    rw [hnow]
    rcases mem_ainsert.1 hq with hq | hq
    · rw [hq]; exact hstart
    · exact h.startTimeLe q hq.1
  · intro q hq
    rw [hpend] at hq
    rcases mem_ainsert.1 hq with hq | hq
    · rw [hq]; exact hrem
    · exact h.remLe q hq.1
  · intro q hq
    rw [hpend] at hq
    rcases mem_ainsert.1 hq with hq | hq
    · rw [hq]; exact hzero
    · exact h.zeroNoTimer q hq.1

theorem invCore_modify {s s' : ServerState} {i : Nat} {p p' : PendingRequest}
    (h : InvCore s) (hl : alookup i s.pendingRequests = some p)
    (hpend : s'.pendingRequests = ainsert i p' s.pendingRequests)
    (hlog : s'.resolvedLog = s.resolvedLog)
    (hnext : s'.nextId = s.nextId) (hnow : s'.now = s.now)
    (hstart : p'.startTime ≤ s.now)
    (hrem : p'.remainingTime ≤ p'.totalTimeout)
    (hzero : p'.totalTimeout = 0 → p'.timeoutId = none) : InvCore s' := by
  have hik : i ∈ s.pendingRequests.map Prod.fst := mem_keys_of_alookup hl
  have hids : resolvedIds s' = resolvedIds s := by rw [resolvedIds, hlog, resolvedIds]
  have hkeys : s'.pendingRequests.map Prod.fst =
      i :: (aerase i s.pendingRequests).map Prod.fst := by
    rw [hpend, keys_ainsert]
  constructor
  · intro k hk
    rw [hkeys, List.mem_cons] at hk
    rw [hnext]
    rcases hk with hk | hk
    · exact hk ▸ h.keysLt i hik
    · exact h.keysLt k (mem_keys_aerase.1 hk).1
  · intro x hx
    rw [hids] at hx
    rw [hnext]
    exact h.resolvedLt x hx
  · rw [hkeys]
    exact List.nodup_cons.2 ⟨not_mem_keys_aerase_self _ _,
      nodup_keys_aerase h.keysNodup⟩
  · intro k hk
    rw [hkeys, List.mem_cons] at hk
    rw [hids]
    rcases hk with hk | hk
    · exact hk ▸ h.pendingUnresolved i hik
    · exact h.pendingUnresolved k (mem_keys_aerase.1 hk).1
  · rw [hids]; exact h.resolvedNodup
  · intro q hq
    rw [hpend] at hq
    rw [hnow]
    rcases mem_ainsert.1 hq with hq | hq
    · rw [hq]; exact hstart
    · exact h.startTimeLe q hq.1
  · intro q hq
    rw [hpend] at hq
    rcases mem_ainsert.1 hq with hq | hq
    · rw [hq]; exact hrem
    · exact h.remLe q hq.1
  · intro q hq
    rw [hpend] at hq
    rcases mem_ainsert.1 hq with hq | hq
    · rw [hq]; exact hzero
    · exact h.zeroNoTimer q hq.1

theorem handleUserResponse_facts {s : ServerState} {i : Nat} {p : PendingRequest}
    (v : RespValue) (h : alookup i s.pendingRequests = some p) :
    (handleUserResponse s i v).pendingRequests = aerase i s.pendingRequests ∧
    resolvedIds (handleUserResponse s i v) = resolvedIds s ++ [i] ∧
    (handleUserResponse s i v).nextId = s.nextId ∧
    (handleUserResponse s i v).now = s.now := by
  simp [handleUserResponse, h, deletePendingRequest_eq, clearIntervalFor, resolvedIds]

theorem timeoutHandler_facts (s : ServerState) (i : Nat) :
    (timeoutHandler s i).pendingRequests = aerase i s.pendingRequests ∧
    resolvedIds (timeoutHandler s i) = resolvedIds s ++ [i] ∧
    (timeoutHandler s i).nextId = s.nextId ∧
    (timeoutHandler s i).now = s.now := by
  simp [timeoutHandler, deletePendingRequest_eq, clearIntervalFor, resolvedIds]

theorem resumedTimeoutFire_facts (s : ServerState) (i : Nat) :
    (resumedTimeoutFire s i).pendingRequests = aerase i s.pendingRequests ∧
    resolvedIds (resumedTimeoutFire s i) = resolvedIds s ++ [i] ∧
    (resumedTimeoutFire s i).nextId = s.nextId ∧
    (resumedTimeoutFire s i).now = s.now := by
  simp [resumedTimeoutFire, deletePendingRequest_eq, resolvedIds]

theorem invCore_advance {s : ServerState} (h : InvCore s) (t : Nat) :
    InvCore (advanceNow s t) :=
  invCore_congr h rfl rfl le_rfl (Nat.le_max_left _ _)

theorem handleCancellation_facts {s : ServerState} {jid : JsonId} {i : Nat}
    {p : PendingRequest} (reason : Option String)
    (hj : alookup jid s.jsonRpcIdToRequestId = some i)
    (hp : alookup i s.pendingRequests = some p) :
    (handleCancellation s (some jid) reason).pendingRequests =
      aerase i s.pendingRequests ∧
    resolvedIds (handleCancellation s (some jid) reason) = resolvedIds s ++ [i] ∧
    (handleCancellation s (some jid) reason).nextId = s.nextId ∧
    (handleCancellation s (some jid) reason).now = s.now := by
  simp [handleCancellation, hj, hp, deletePendingRequest_eq, clearIntervalFor, resolvedIds]

theorem handleDisconnect_facts {s : ServerState} {i : Nat} {p : PendingRequest}
    (source : String)
    (hf1 : i ∉ s.disconnectFired) (hf2 : i ∉ s.finishedResponses)
    (hp : alookup i s.pendingRequests = some p) :
    (handleDisconnect s i source).pendingRequests = aerase i s.pendingRequests ∧
    resolvedIds (handleDisconnect s i source) = resolvedIds s ++ [i] ∧
    (handleDisconnect s i source).nextId = s.nextId ∧
    (handleDisconnect s i source).now = s.now := by
  simp [handleDisconnect, hf1, hf2, hp, deletePendingRequest_eq, clearIntervalFor,
    resolvedIds]

theorem handleDisconnect_nopending_facts {s : ServerState} {i : Nat} (source : String)
    (hf1 : i ∉ s.disconnectFired) (hf2 : i ∉ s.finishedResponses)
    (hp : alookup i s.pendingRequests = none) :
    (handleDisconnect s i source).pendingRequests = s.pendingRequests ∧
    (handleDisconnect s i source).resolvedLog = s.resolvedLog ∧
    (handleDisconnect s i source).nextId = s.nextId ∧
    (handleDisconnect s i source).now = s.now := by
  simp [handleDisconnect, hf1, hf2, hp, clearIntervalFor]

theorem handleToolCall_none {s : ServerState} {name : String} {args : ToolCallArgs}
    {timeoutSec : Nat} (jsonRpcId : Option JsonId)
    (hb : buildToolRequest name args s.nextId s.now
      (if 0 < timeoutSec then s.now + timeoutSec * 1000 else 0) = none) :
    (handleToolCall s name args timeoutSec jsonRpcId).pendingRequests =
      s.pendingRequests ∧
    (handleToolCall s name args timeoutSec jsonRpcId).resolvedLog = s.resolvedLog ∧
    (handleToolCall s name args timeoutSec jsonRpcId).nextId = s.nextId + 1 ∧
    (handleToolCall s name args timeoutSec jsonRpcId).now = s.now := by
  cases jsonRpcId with
  | none => simp [handleToolCall, hb]
  | some j => simp [handleToolCall, hb]

theorem handleToolCall_some {s : ServerState} {name : String} {args : ToolCallArgs}
    {timeoutSec : Nat} (jsonRpcId : Option JsonId) {tr : ToolRequest}
    (hb : buildToolRequest name args s.nextId s.now
      (if 0 < timeoutSec then s.now + timeoutSec * 1000 else 0) = some tr) :
    (handleToolCall s name args timeoutSec jsonRpcId).pendingRequests =
      ainsert s.nextId
        { request := tr
          timeoutId := if 0 < timeoutSec then some .creation else none
          remainingTime := timeoutSec * 1000
          isPaused := false
          startTime := s.now
          totalTimeout := timeoutSec * 1000
          jsonRpcId := jsonRpcId } s.pendingRequests ∧
    (handleToolCall s name args timeoutSec jsonRpcId).resolvedLog = s.resolvedLog ∧
    (handleToolCall s name args timeoutSec jsonRpcId).nextId = s.nextId + 1 ∧
    (handleToolCall s name args timeoutSec jsonRpcId).now = s.now := by
  cases jsonRpcId with
  | none => simp [handleToolCall, hb]
  | some j => simp [handleToolCall, hb]

theorem stopInternal_run_facts {s : ServerState} (hr : s.serverRunning = true) :
    (stopInternal s).pendingRequests = [] ∧
    (stopInternal s).jsonRpcIdToRequestId = [] ∧
    resolvedIds (stopInternal s) = resolvedIds s ++ s.pendingRequests.map Prod.fst ∧
    (stopInternal s).nextId = s.nextId ∧
    (stopInternal s).now = s.now := by
  simp [stopInternal, hr, resolvedIds, List.map_map, Function.comp]

/-! ## Invariant preservation -/

theorem invCore_step {s : ServerState} (h : InvCore s) (e : Event) :
    InvCore (step s e) := by
  cases e with
  | toolCall t name args timeoutSec jsonRpcId =>
      simp only [step]
      split
      · cases hb : buildToolRequest name args (advanceNow s t).nextId (advanceNow s t).now
            (if 0 < timeoutSec then (advanceNow s t).now + timeoutSec * 1000 else 0) with
        | none =>
            obtain ⟨f1, f2, f3, f4⟩ := handleToolCall_none jsonRpcId hb
            have hle : (advanceNow s t).nextId ≤
                (handleToolCall (advanceNow s t) name args timeoutSec jsonRpcId).nextId := by
              rw [f3]
              exact Nat.le_succ _
            exact invCore_congr (invCore_advance h t) f1 f2 hle (le_of_eq f4.symm)
        | some tr =>
            obtain ⟨f1, f2, f3, f4⟩ := handleToolCall_some jsonRpcId hb
            refine invCore_insertFresh (invCore_advance h t) f1 f2 f3 f4 le_rfl le_rfl ?_
            intro hz
            have hz' : timeoutSec * 1000 = 0 := hz
            have hts : timeoutSec = 0 := by omega
            show (if 0 < timeoutSec then some TimerKind.creation else none) = none
            rw [hts]
            simp
      · exact invCore_advance h t
  | userResponse t id v =>
      simp only [step]
      cases hp : alookup id (advanceNow s t).pendingRequests with
      | none =>
          simp only [handleUserResponse, hp]
          exact invCore_advance h t
      | some p =>
          obtain ⟨f1, f2, f3, f4⟩ := handleUserResponse_facts v hp
          exact invCore_settle (invCore_advance h t) (mem_keys_of_alookup hp) f1 f2 f3 (le_of_eq f4.symm)
  | timerFire t id =>
      simp only [step]
      cases hp : alookup id (advanceNow s t).pendingRequests with
      | none =>
          simp only [hp]
          exact invCore_advance h t
      | some pending =>
          simp only [hp]
          cases hk : pending.timeoutId with
          | none =>
              simp only [hk]
              exact invCore_advance h t
          | some kind =>
              simp only [hk]
              split
              · cases kind with
                | creation =>
                    obtain ⟨f1, f2, f3, f4⟩ :=
                      timeoutHandler_facts (advanceNow s t) id
                    exact invCore_settle (invCore_advance h t) (mem_keys_of_alookup hp) f1 f2 f3
                      (le_of_eq f4.symm)
                | resumed =>
                    obtain ⟨f1, f2, f3, f4⟩ :=
                      resumedTimeoutFire_facts (advanceNow s t) id
                    exact invCore_settle (invCore_advance h t) (mem_keys_of_alookup hp) f1 f2 f3
                      (le_of_eq f4.symm)
              · exact invCore_advance h t
  | cancelNotif t rid reason =>
      simp only [step]
      cases rid with
      | none => exact invCore_advance h t
      | some jid =>
          cases hj : alookup jid (advanceNow s t).jsonRpcIdToRequestId with
          | none =>
              simp only [handleCancellation, hj]
              exact invCore_advance h t
          | some i =>
              cases hp : alookup i (advanceNow s t).pendingRequests with
              | none =>
                  simp only [handleCancellation, hj, hp]
                  exact invCore_advance h t
              | some p =>
                  obtain ⟨f1, f2, f3, f4⟩ :=
                    handleCancellation_facts reason hj hp
                  exact invCore_settle (invCore_advance h t) (mem_keys_of_alookup hp) f1 f2 f3
                    (le_of_eq f4.symm)
  | disconnect t id src =>
      simp only [step]
      cases hflag : ((advanceNow s t).disconnectFired.contains id ||
          (advanceNow s t).finishedResponses.contains id) with
      | true =>
          simp only [handleDisconnect, hflag]
          exact invCore_advance h t
      | false =>
          have hf : id ∉ (advanceNow s t).disconnectFired ∧
              id ∉ (advanceNow s t).finishedResponses := by
            simpa using hflag
          cases hp : alookup id (advanceNow s t).pendingRequests with
          | none =>
              obtain ⟨f1, f2, f3, f4⟩ :=
                handleDisconnect_nopending_facts src hf.1 hf.2 hp
              exact invCore_congr (invCore_advance h t) f1 f2 (le_of_eq f3.symm) (le_of_eq f4.symm)
          | some p =>
              obtain ⟨f1, f2, f3, f4⟩ :=
                handleDisconnect_facts src hf.1 hf.2 hp
              exact invCore_settle (invCore_advance h t) (mem_keys_of_alookup hp) f1 f2 f3
                (le_of_eq f4.symm)
  | httpFinish id =>
      simp only [step]
      split
      · exact invCore_congr h rfl rfl le_rfl le_rfl
      · exact h
  | serverStop t =>
      cases hr : (advanceNow s t).serverRunning with
      | false =>
          have h1 := invCore_advance h t
          simp only [step, stopInternal, hr]
          exact h1
      | true =>
          have h1 := invCore_advance h t
          obtain ⟨f1, f2, f3, f4, f5⟩ := stopInternal_run_facts hr
          show InvCore (stopInternal (advanceNow s t))
          constructor
          · intro k hk
            rw [f1] at hk
            simp at hk
          · intro x hx
            rw [f3, List.mem_append] at hx
            rw [f4]
            rcases hx with hx | hx
            · exact h1.resolvedLt x hx
            · exact h1.keysLt x hx
          · rw [f1]; simp
          · intro k hk
            rw [f1] at hk
            simp at hk
          · rw [f3]
            refine List.Nodup.append h1.resolvedNodup h1.keysNodup ?_
            intro a ha hb
            exact h1.pendingUnresolved a hb ha
          · intro q hq
            rw [f1] at hq
            simp at hq
          · intro q hq
            rw [f1] at hq
            simp at hq
          · intro q hq
            rw [f1] at hq
            simp at hq
  | pauseReq t id =>
      simp only [step]
      cases hp : alookup id (advanceNow s t).pendingRequests with
      | none =>
          simp only [pauseRequest, hp]
          exact invCore_advance h t
      | some p =>
          cases hpau : p.isPaused with
          | true =>
              simp only [pauseRequest, hp, hpau]
              exact invCore_advance h t
          | false =>
              simp only [pauseRequest, hp, hpau]
              refine invCore_modify (invCore_advance h t) hp rfl rfl rfl rfl ?_ ?_ ?_
              · exact (invCore_advance h t).startTimeLe _ (mem_of_alookup hp)
              · exact le_trans (Nat.sub_le _ _) ((invCore_advance h t).remLe _ (mem_of_alookup hp))
              · intro _
                rfl
  | resumeReq t id =>
      simp only [step]
      cases hp : alookup id (advanceNow s t).pendingRequests with
      | none =>
          simp only [resumeRequest, hp]
          exact invCore_advance h t
      | some p =>
          cases hpau : p.isPaused with
          | false =>
              simp only [resumeRequest, hp, hpau]
              exact invCore_advance h t
          | true =>
              simp only [resumeRequest, hp, hpau]
              refine invCore_modify (invCore_advance h t) hp rfl rfl rfl rfl le_rfl ?_ ?_
              · exact (invCore_advance h t).remLe _ (mem_of_alookup hp)
              · intro hz
                have hz' : p.totalTimeout = 0 := hz
                show (if 0 < p.remainingTime ∧ 0 < p.totalTimeout then
                    some TimerKind.resumed else p.timeoutId) = none
                rw [if_neg (by omega)]
                exact (invCore_advance h t).zeroNoTimer _ (mem_of_alookup hp) hz'

theorem invCore_run (es : List Event) : ∀ s : ServerState, InvCore s → InvCore (run s es) := by
  induction es with
  | nil => intro s h; exact h
  | cons e rest ih =>
      intro s h
      exact ih (step s e) (invCore_step h e)

theorem invCore_initial : InvCore initialState := by
  constructor <;> simp [initialState, resolvedIds]

theorem invCore_reachable {s : ServerState} (h : Reachable s) : InvCore s := by
  rcases h with ⟨es, rfl⟩
  exact invCore_run es initialState invCore_initial

/-! ## Coherence of the external-id translation map -/

theorem buildToolRequest_known {name : String} (h : KnownName name)
    (args : ToolCallArgs) (requestId now serverEndTime : Nat) :
    ∃ tr, buildToolRequest name args requestId now serverEndTime = some tr := by
  rcases h with h | h | h <;> subst h <;> exact ⟨_, rfl⟩

theorem handleUserResponse_map {s : ServerState} {i : Nat} {p : PendingRequest}
    {v : RespValue} (h : alookup i s.pendingRequests = some p) :
    (handleUserResponse s i v).jsonRpcIdToRequestId =
      match p.jsonRpcId with
      | some j => aerase j s.jsonRpcIdToRequestId
      | none => s.jsonRpcIdToRequestId := by
  simp [handleUserResponse, h, deletePendingRequest_eq, clearIntervalFor]

theorem timeoutHandler_map {s : ServerState} {i : Nat} {p : PendingRequest}
    (h : alookup i s.pendingRequests = some p) :
    (timeoutHandler s i).jsonRpcIdToRequestId =
      match p.jsonRpcId with
      | some j => aerase j s.jsonRpcIdToRequestId
      | none => s.jsonRpcIdToRequestId := by
  simp [timeoutHandler, h, deletePendingRequest_eq, clearIntervalFor]

theorem resumedTimeoutFire_map {s : ServerState} {i : Nat} {p : PendingRequest}
    (h : alookup i s.pendingRequests = some p) :
    (resumedTimeoutFire s i).jsonRpcIdToRequestId =
      match p.jsonRpcId with
      | some j => aerase j s.jsonRpcIdToRequestId
      | none => s.jsonRpcIdToRequestId := by
  simp [resumedTimeoutFire, h, deletePendingRequest_eq]

theorem handleCancellation_map {s : ServerState} {jid : JsonId} {i : Nat}
    {p : PendingRequest} {reason : Option String}
    (hj : alookup jid s.jsonRpcIdToRequestId = some i)
    (hp : alookup i s.pendingRequests = some p) :
    (handleCancellation s (some jid) reason).jsonRpcIdToRequestId =
      match p.jsonRpcId with
      | some j => aerase j s.jsonRpcIdToRequestId
      | none => s.jsonRpcIdToRequestId := by
  simp [handleCancellation, hj, hp, deletePendingRequest_eq, clearIntervalFor]

theorem handleDisconnect_map {s : ServerState} {i : Nat} {p : PendingRequest}
    (source : String)
    (hf1 : i ∉ s.disconnectFired) (hf2 : i ∉ s.finishedResponses)
    (hp : alookup i s.pendingRequests = some p) :
    (handleDisconnect s i source).jsonRpcIdToRequestId =
      match p.jsonRpcId with
      | some j => aerase j s.jsonRpcIdToRequestId
      | none => s.jsonRpcIdToRequestId := by
  simp [handleDisconnect, hf1, hf2, hp, deletePendingRequest_eq, clearIntervalFor]

theorem handleDisconnect_nopending_map {s : ServerState} {i : Nat} (source : String)
    (hf1 : i ∉ s.disconnectFired) (hf2 : i ∉ s.finishedResponses)
    (hp : alookup i s.pendingRequests = none) :
    (handleDisconnect s i source).jsonRpcIdToRequestId = s.jsonRpcIdToRequestId := by
  simp [handleDisconnect, hf1, hf2, hp, clearIntervalFor]

theorem handleToolCall_some_map {s : ServerState} {name : String} {args : ToolCallArgs}
    {timeoutSec : Nat} (jsonRpcId : Option JsonId) {tr : ToolRequest}
    (hb : buildToolRequest name args s.nextId s.now
      (if 0 < timeoutSec then s.now + timeoutSec * 1000 else 0) = some tr) :
    (handleToolCall s name args timeoutSec jsonRpcId).jsonRpcIdToRequestId =
      match jsonRpcId with
      | some j => ainsert j s.nextId s.jsonRpcIdToRequestId
      | none => s.jsonRpcIdToRequestId := by
  cases jsonRpcId with
  | none => simp [handleToolCall, hb]
  | some j => simp [handleToolCall, hb]

theorem invMap_congr {s s' : ServerState} (hm : InvMap s)
    (hpend : s'.pendingRequests = s.pendingRequests)
    (hmap : s'.jsonRpcIdToRequestId = s.jsonRpcIdToRequestId) : InvMap s' := by
  intro j x hjx
  rw [hmap] at hjx
  rw [hpend]
  exact hm j x hjx

theorem invMap_settle {s s' : ServerState} {i : Nat} {p : PendingRequest}
    (hm : InvMap s)
    (hp : alookup i s.pendingRequests = some p)
    (hpend : s'.pendingRequests = aerase i s.pendingRequests)
    (hmap : s'.jsonRpcIdToRequestId =
      match p.jsonRpcId with
      | some j => aerase j s.jsonRpcIdToRequestId
      | none => s.jsonRpcIdToRequestId) : InvMap s' := by
  intro j x hjx
  rw [hmap] at hjx
  cases hpj : p.jsonRpcId with
  | none =>
      rw [hpj] at hjx
      obtain ⟨q, hq, hqj⟩ := hm j x hjx
      have hxi : x ≠ i := by
        intro he
        subst he
        rw [hp] at hq
        cases hq
        rw [hpj] at hqj
        cases hqj
      refine ⟨q, ?_, hqj⟩
      rw [hpend, alookup_aerase_ne hxi]
      exact hq
  | some J =>
      rw [hpj] at hjx
      obtain ⟨hjx', hjJ⟩ := mem_aerase.1 hjx
      obtain ⟨q, hq, hqj⟩ := hm j x hjx'
      have hxi : x ≠ i := by
        intro he
        subst he
        rw [hp] at hq
        cases hq
        rw [hpj] at hqj
        exact hjJ (Option.some.inj hqj).symm
      refine ⟨q, ?_, hqj⟩
      rw [hpend, alookup_aerase_ne hxi]
      exact hq

theorem invMap_modify {s s' : ServerState} {i : Nat} {p p' : PendingRequest}
    (hm : InvMap s) (hp : alookup i s.pendingRequests = some p)
    (hpend : s'.pendingRequests = ainsert i p' s.pendingRequests)
    (hj : p'.jsonRpcId = p.jsonRpcId)
    (hmap : s'.jsonRpcIdToRequestId = s.jsonRpcIdToRequestId) : InvMap s' := by
  intro j x hjx
  rw [hmap] at hjx
  obtain ⟨q, hq, hqj⟩ := hm j x hjx
  by_cases hxi : x = i
  · subst hxi
    rw [hp] at hq
    cases hq
    refine ⟨p', ?_, ?_⟩
    · rw [hpend]
      exact alookup_ainsert_self _ _ _
    · rw [hj]
      exact hqj
  · refine ⟨q, ?_, hqj⟩
    rw [hpend, alookup_ainsert_ne hxi]
    exact hq

theorem invMap_step {s : ServerState} (hc : InvCore s) (hm : InvMap s) {e : Event}
    (he : eventKnown e) : InvMap (step s e) := by
  cases e with
  | toolCall t name args timeoutSec jsonRpcId =>
      have hc1 : InvCore (advanceNow s t) := invCore_advance hc t
      have hm1 : InvMap (advanceNow s t) := invMap_congr hm rfl rfl
      have hkn : KnownName name := he
      simp only [step]
      split
      · obtain ⟨tr, hb⟩ := buildToolRequest_known hkn args (advanceNow s t).nextId
          (advanceNow s t).now
          (if 0 < timeoutSec then (advanceNow s t).now + timeoutSec * 1000 else 0)
        obtain ⟨f1, _, _, _⟩ := handleToolCall_some jsonRpcId hb
        have fm := handleToolCall_some_map jsonRpcId hb
        intro j x hjx
        rw [fm] at hjx
        cases jsonRpcId with
        | none =>
            obtain ⟨q, hq, hqj⟩ := hm1 j x hjx
            have hxr : x ≠ (advanceNow s t).nextId := by
              have := hc1.keysLt x (mem_keys_of_alookup hq)
              omega
            refine ⟨q, ?_, hqj⟩
            rw [f1, alookup_ainsert_ne hxr]
            exact hq
        | some J =>
            rcases mem_ainsert.1 hjx with hjx | ⟨hjx', hjJ⟩
            · have h1 : j = J := congrArg Prod.fst hjx
              have h2 : x = (advanceNow s t).nextId := congrArg Prod.snd hjx
              subst h1
              subst h2
              refine ⟨{ request := tr
                        timeoutId := if 0 < timeoutSec then some TimerKind.creation else none
                        remainingTime := timeoutSec * 1000
                        isPaused := false
                        startTime := (advanceNow s t).now
                        totalTimeout := timeoutSec * 1000
                        jsonRpcId := some j }, ?_, rfl⟩
              rw [f1]
              exact alookup_ainsert_self _ _ _
            · obtain ⟨q, hq, hqj⟩ := hm1 j x hjx'
              have hxr : x ≠ (advanceNow s t).nextId := by
                have := hc1.keysLt x (mem_keys_of_alookup hq)
                omega
              refine ⟨q, ?_, hqj⟩
              rw [f1, alookup_ainsert_ne hxr]
              exact hq
      · exact hm1
  | userResponse t id v =>
      have hm1 : InvMap (advanceNow s t) := invMap_congr hm rfl rfl
      simp only [step]
      cases hp : alookup id (advanceNow s t).pendingRequests with
      | none =>
          simp only [handleUserResponse, hp]
          exact hm1
      | some p =>
          exact invMap_settle hm1 hp (handleUserResponse_facts v hp).1
            (handleUserResponse_map hp)
  | timerFire t id =>
      have hm1 : InvMap (advanceNow s t) := invMap_congr hm rfl rfl
      simp only [step]
      cases hp : alookup id (advanceNow s t).pendingRequests with
      | none =>
          simp only [hp]
          exact hm1
      | some pending =>
          simp only [hp]
          cases hk : pending.timeoutId with
          | none =>
              simp only [hk]
              exact hm1
          | some kind =>
              simp only [hk]
              split
              · cases kind with
                | creation =>
                    exact invMap_settle hm1 hp
                      (timeoutHandler_facts (advanceNow s t) id).1
                      (timeoutHandler_map hp)
                | resumed =>
                    exact invMap_settle hm1 hp
                      (resumedTimeoutFire_facts (advanceNow s t) id).1
                      (resumedTimeoutFire_map hp)
              · exact hm1
  | cancelNotif t rid reason =>
      have hm1 : InvMap (advanceNow s t) := invMap_congr hm rfl rfl
      simp only [step]
      cases rid with
      | none => exact hm1
      | some jid =>
          cases hj : alookup jid (advanceNow s t).jsonRpcIdToRequestId with
          | none =>
              simp only [handleCancellation, hj]
              exact hm1
          | some i =>
              cases hp : alookup i (advanceNow s t).pendingRequests with
              | none =>
                  simp only [handleCancellation, hj, hp]
                  exact hm1
              | some p =>
                  exact invMap_settle hm1 hp
                    (handleCancellation_facts reason hj hp).1
                    (handleCancellation_map hj hp)
  | disconnect t id src =>
      have hm1 : InvMap (advanceNow s t) := invMap_congr hm rfl rfl
      simp only [step]
      cases hflag : ((advanceNow s t).disconnectFired.contains id ||
          (advanceNow s t).finishedResponses.contains id) with
      | true =>
          simp only [handleDisconnect, hflag]
          exact hm1
      | false =>
          have hf : id ∉ (advanceNow s t).disconnectFired ∧
              id ∉ (advanceNow s t).finishedResponses := by
            simpa using hflag
          cases hp : alookup id (advanceNow s t).pendingRequests with
          | none =>
              exact invMap_congr hm1
                (handleDisconnect_nopending_facts src hf.1 hf.2 hp).1
                (handleDisconnect_nopending_map src hf.1 hf.2 hp)
          | some p =>
              exact invMap_settle hm1 hp
                (handleDisconnect_facts src hf.1 hf.2 hp).1
                (handleDisconnect_map src hf.1 hf.2 hp)
  | httpFinish id =>
      simp only [step]
      split
      · exact invMap_congr hm rfl rfl
      · exact hm
  | serverStop t =>
      have hm1 : InvMap (advanceNow s t) := invMap_congr hm rfl rfl
      cases hr : (advanceNow s t).serverRunning with
      | false =>
          simp only [step, stopInternal, hr]
          exact hm1
      | true =>
          show InvMap (stopInternal (advanceNow s t))
          intro j x hjx
          have hmap : (stopInternal (advanceNow s t)).jsonRpcIdToRequestId = [] := by
            simp [stopInternal, hr]
          rw [hmap] at hjx
          cases hjx
  | pauseReq t id =>
      have hm1 : InvMap (advanceNow s t) := invMap_congr hm rfl rfl
      simp only [step]
      cases hp : alookup id (advanceNow s t).pendingRequests with
      | none =>
          simp only [pauseRequest, hp]
          exact hm1
      | some p =>
          cases hpau : p.isPaused with
          | true =>
              simp only [pauseRequest, hp, hpau]
              exact hm1
          | false =>
              simp only [pauseRequest, hp, hpau]
              exact invMap_modify hm1 hp rfl rfl rfl
  | resumeReq t id =>
      have hm1 : InvMap (advanceNow s t) := invMap_congr hm rfl rfl
      simp only [step]
      cases hp : alookup id (advanceNow s t).pendingRequests with
      | none =>
          simp only [resumeRequest, hp]
          exact hm1
      | some p =>
          cases hpau : p.isPaused with
          | false =>
              simp only [resumeRequest, hp, hpau]
              exact hm1
          | true =>
              simp only [resumeRequest, hp, hpau]
              exact invMap_modify hm1 hp rfl rfl rfl

theorem invBoth_run (es : List Event) : ∀ s : ServerState, KnownTrace es →
    InvCore s → InvMap s → InvCore (run s es) ∧ InvMap (run s es) := by
  induction es with
  | nil => intro s _ hc hm; exact ⟨hc, hm⟩
  | cons e rest ih =>
      intro s hk hc hm
      have he : eventKnown e := hk e (List.mem_cons_self e rest)
      have hk' : KnownTrace rest := fun x hx => hk x (List.mem_cons_of_mem e hx)
      exact ih (step s e) hk' (invCore_step hc e) (invMap_step hc hm he)

theorem invMap_initial : InvMap initialState := by
  intro j x hjx
  cases hjx

/-! ## Pause/resume stepping -/

theorem pause_step_char (s : ServerState) (id pa : Nat) (p : PendingRequest)
    (hl : alookup id s.pendingRequests = some p) (hpau : p.isPaused = false)
    (hle : s.now ≤ pa) :
    step s (.pauseReq pa id) =
      { s with
        now := pa
        pendingRequests := ainsert id
          { p with
            timeoutId := none
            remainingTime := p.remainingTime - (pa - p.startTime)
            isPaused := true } s.pendingRequests } := by
  have hmax : max s.now pa = pa := Nat.max_eq_right hle
  simp [step, advanceNow, pauseRequest, hl, hpau, hmax]

theorem resume_step_char (s : ServerState) (id r : Nat) (p : PendingRequest)
    (hl : alookup id s.pendingRequests = some p) (hpau : p.isPaused = true)
    (hle : s.now ≤ r) (hcond : 0 < p.remainingTime ∧ 0 < p.totalTimeout) :
    step s (.resumeReq r id) =
      { s with
        now := r
        pendingRequests := ainsert id
          { p with
            timeoutId := some .resumed
            startTime := r
            isPaused := false } s.pendingRequests } := by
  have hmax : max s.now r = r := Nat.max_eq_right hle
  simp [step, advanceNow, resumeRequest, hl, hpau, hmax, hcond.1, hcond.2]

/-- Wall-clock accounting across arbitrarily many timely pause/resume cycles:
the armed remaining time is always the original remaining time minus the
exact total running time consumed so far — no per-cycle drift. -/
theorem cycles_accounting (cycles : List (Nat × Nat)) :
    ∀ (s : ServerState) (id : Nat) (p : PendingRequest),
    alookup id s.pendingRequests = some p →
    p.isPaused = false → 0 < p.totalTimeout → 0 < p.remainingTime →
    s.now = p.startTime →
    timelyB p.startTime p.remainingTime cycles = true →
    ∃ p', alookup id (run s (cycleEvents id cycles)).pendingRequests = some p' ∧
      p'.isPaused = false ∧
      p'.totalTimeout = p.totalTimeout ∧
      p'.startTime = lastResume p.startTime cycles ∧
      (run s (cycleEvents id cycles)).now = p'.startTime ∧
      consumed p.startTime cycles < p.remainingTime ∧
      p'.remainingTime = p.remainingTime - consumed p.startTime cycles ∧
      (cycles = [] → p' = p) ∧
      (cycles ≠ [] → p'.timeoutId = some .resumed) := by
  induction cycles with
  | nil =>
      intro s id p hl hpau htot hrem hnow htimely
      refine ⟨p, hl, hpau, rfl, rfl, hnow, ?_, ?_, fun _ => rfl, fun hc => absurd rfl hc⟩
      · show consumed p.startTime [] < p.remainingTime
        simpa [consumed] using hrem
      · show p.remainingTime = p.remainingTime - consumed p.startTime []
        simp [consumed]
  | cons c rest ih =>
      obtain ⟨pa, r⟩ := c
      intro s id p hl hpau htot hrem hnow htimely
      simp only [timelyB, Bool.and_eq_true, decide_eq_true_eq] at htimely
      obtain ⟨⟨⟨h1, h2⟩, h3⟩, h4⟩ := htimely
      have hstep1 := pause_step_char s id pa p hl hpau (by omega)
      simp only [cycleEvents, run, List.foldl_cons]
      rw [hstep1]
      have hstep2 := resume_step_char
        { s with
          now := pa
          pendingRequests := ainsert id
            { p with
              timeoutId := none
              remainingTime := p.remainingTime - (pa - p.startTime)
              isPaused := true } s.pendingRequests }
        id r
        { p with
          timeoutId := none
          remainingTime := p.remainingTime - (pa - p.startTime)
          isPaused := true }
        (alookup_ainsert_self id _ s.pendingRequests) rfl
        (show pa ≤ r from h3)
        ⟨show 0 < p.remainingTime - (pa - p.startTime) by omega,
         show 0 < p.totalTimeout from htot⟩
      rw [hstep2]
      have hIH := ih
        { s with
          now := r
          pendingRequests := ainsert id
            { request := p.request
              timeoutId := some TimerKind.resumed
              remainingTime := p.remainingTime - (pa - p.startTime)
              isPaused := false
              startTime := r
              totalTimeout := p.totalTimeout
              jsonRpcId := p.jsonRpcId }
            (ainsert id
              { p with
                timeoutId := none
                remainingTime := p.remainingTime - (pa - p.startTime)
                isPaused := true } s.pendingRequests) }
        id
        { request := p.request
          timeoutId := some TimerKind.resumed
          remainingTime := p.remainingTime - (pa - p.startTime)
          isPaused := false
          startTime := r
          totalTimeout := p.totalTimeout
          jsonRpcId := p.jsonRpcId }
        (alookup_ainsert_self _ _ _) rfl htot
        (show 0 < p.remainingTime - (pa - p.startTime) by omega)
        rfl h4
      obtain ⟨p', ha, hb, hc, hd, he, hf, hg, hemp, hne⟩ := hIH
      have hf' : consumed r rest < p.remainingTime - (pa - p.startTime) := hf
      refine ⟨p', ?_, hb, hc, hd, ?_, ?_, ?_, ?_, ?_⟩
      · exact ha
      · exact he
      · show (pa - p.startTime) + consumed r rest < p.remainingTime
        omega
      · show p'.remainingTime = p.remainingTime - ((pa - p.startTime) + consumed r rest)
        have hg' : p'.remainingTime =
            (p.remainingTime - (pa - p.startTime)) - consumed r rest := hg
        omega
      · intro hcon
        cases hcon
      · intro _
        cases rest with
        | nil => rw [hemp rfl]
        | cons d ds => exact hne (by simp)

/-! ## Body accumulation lemmas -/

theorem foldl_onDataChunk_aborted (cs : List String) (x : String) :
    cs.foldl onDataChunk { body := x, aborted := true } =
      { body := x, aborted := true } := by
  induction cs with
  | nil => rfl
  | cons c rest ih => simpa [onDataChunk] using ih

theorem receive_aux_abort : ∀ (chunks : List String) (b : String),
    b.length ≤ MAX_BODY_SIZE →
    (∃ k, MAX_BODY_SIZE < (b ++ joinTake chunks k).length) →
    (chunks.foldl onDataChunk { body := b, aborted := false }).aborted = true := by
  intro chunks
  induction chunks with
  | nil =>
      intro b hb ⟨k, hk⟩
      rw [show joinTake [] k = "" from by simp [joinTake, joinAll]] at hk
      simp [String.length_append] at hk
      omega
  | cons c rest ih =>
      intro b hb hex
      obtain ⟨k, hk⟩ := hex
      simp only [List.foldl_cons]
      by_cases habort : MAX_BODY_SIZE < b.length + c.length
      · rw [show onDataChunk { body := b, aborted := false } c =
            { body := b ++ c, aborted := true } from by
          simp [onDataChunk, String.length_append, habort]]
        rw [foldl_onDataChunk_aborted]
      · rw [show onDataChunk { body := b, aborted := false } c =
            { body := b ++ c, aborted := false } from by
          simp [onDataChunk, String.length_append, habort]]
        refine ih (b ++ c) (by
          simp only [String.length_append]
          omega) ?_
        cases k with
        | zero =>
            rw [show joinTake (c :: rest) 0 = "" from rfl] at hk
            simp [String.length_append] at hk
            omega
        | succ k' =>
            refine ⟨k', ?_⟩
            rw [show joinTake (c :: rest) (k' + 1) = c ++ joinTake rest k' from rfl] at hk
            simp only [String.length_append] at hk ⊢
            omega

theorem receive_aux_ok : ∀ (chunks : List String) (b : String),
    (b ++ joinAll chunks).length ≤ MAX_BODY_SIZE →
    chunks.foldl onDataChunk { body := b, aborted := false } =
      { body := b ++ joinAll chunks, aborted := false } := by
  intro chunks
  induction chunks with
  | nil =>
      intro b hb
      simp [joinAll]
  | cons c rest ih =>
      intro b hb
      have hb' : b.length + (c.length + (joinAll rest).length) ≤ MAX_BODY_SIZE := by
        rw [show joinAll (c :: rest) = c ++ joinAll rest from rfl] at hb
        simpa [String.length_append] using hb
      simp only [List.foldl_cons]
      have hcond : ¬ MAX_BODY_SIZE < b.length + c.length := by omega
      rw [show onDataChunk { body := b, aborted := false } c =
          { body := b ++ c, aborted := false } from by
        simp [onDataChunk, String.length_append, hcond]]
      rw [ih (b ++ c) (by
        simp only [String.length_append]
        omega)]
      rw [show joinAll (c :: rest) = c ++ joinAll rest from rfl]
      rw [String.append_assoc]

/-! ## Validation bounds -/

theorem sliceTo_length (s : String) (n : Nat) : (sliceTo s n).length ≤ n := by
  have h : (sliceTo s n).length = (s.data.take n).length := rfl
  rw [h, List.length_take]
  exact min_le_left _ _

theorem validateString_length (v : JSValue) (n : Nat) (d : String)
    (hd : d.length ≤ n) : (validateString v n d).length ≤ n := by
  cases v with
  | str s => exact sliceTo_length s n
  | num m => exact hd
  | boolean b => exact hd
  | null => exact hd
  | undefinedV => exact hd
  | arr xs => exact hd
  | obj fs => exact hd

theorem validateOptions_count (options : JSValue) :
    (validateOptions options).length ≤ MAX_OPTIONS_COUNT := by
  cases options with
  | arr xs =>
      refine le_trans (List.length_filter_le _ _) ?_
      rw [List.length_map, List.length_take]
      exact min_le_left _ _
  | str s => exact Nat.zero_le _
  | num m => exact Nat.zero_le _
  | boolean b => exact Nat.zero_le _
  | null => exact Nat.zero_le _
  | undefinedV => exact Nat.zero_le _
  | obj fs => exact Nat.zero_le _

theorem validateOptions_bounds (options : JSValue) (o : ButtonOption)
    (ho : o ∈ validateOptions options) :
    o.label.length ≤ MAX_OPTION_LABEL_LENGTH ∧
    o.value.length ≤ MAX_OPTION_VALUE_LENGTH := by
  cases options with
  | arr xs =>
      have ho' := List.mem_of_mem_filter ho
      rcases List.mem_map.1 ho' with ⟨opt, _, rfl⟩
      exact ⟨validateString_length _ _ _ (by decide),
        validateString_length _ _ _ (by decide)⟩
  | str s => cases ho
  | num m => cases ho
  | boolean b => cases ho
  | null => cases ho
  | undefinedV => cases ho
  | obj fs => cases ho

/-! ## The claims -/

/-- C8: for every tools/call, validation never fails the call: every string
field of the built ToolRequest is clamped to its hard ceiling (title 200,
message 50000, placeholder 500, option label 200, option value 1000) or
replaced by a safe default, the options array is truncated to at most 50
entries; for the three recognized tool names the build always succeeds and
the call proceeds to the pending state rather than being rejected. -/
theorem C8_validation_never_fails :
    (∀ (name : String) (args : ToolCallArgs) (i t se : Nat) (req : ToolRequest),
      buildToolRequest name args i t se = some req →
        req.title.length ≤ MAX_TITLE_LENGTH ∧
        req.message.length ≤ MAX_MESSAGE_LENGTH ∧
        (∀ ph, req.placeholder = some ph → ph.length ≤ MAX_PLACEHOLDER_LENGTH) ∧
        req.options.length ≤ MAX_OPTIONS_COUNT ∧
        (∀ o ∈ req.options, o.label.length ≤ MAX_OPTION_LABEL_LENGTH ∧
          o.value.length ≤ MAX_OPTION_VALUE_LENGTH)) ∧
    (∀ (name : String) (args : ToolCallArgs) (i t se : Nat),
      KnownName name → (buildToolRequest name args i t se).isSome = true) ∧
    (∀ (s : ServerState) (t : Nat) (name : String) (args : ToolCallArgs)
      (timeoutSec : Nat) (j : Option JsonId),
      s.serverRunning = true → KnownName name →
        alookup s.nextId
          (step s (.toolCall t name args timeoutSec j)).pendingRequests ≠ none) := by
  refine ⟨?_, ?_, ?_⟩
  · intro name args i t se req hreq
    by_cases h1 : name = "ask_user_text"
    · subst h1
      simp only [buildToolRequest, Option.some.injEq] at hreq
      subst hreq
      refine ⟨validateString_length _ _ _ (by decide),
        validateString_length _ _ _ (by decide), ?_, ?_, ?_⟩
      · intro ph hph
        cases hph
        exact validateString_length _ _ _ (by decide)
      · exact Nat.zero_le _
      · intro o ho
        cases ho
    · by_cases h2 : name = "ask_user_confirm"
      · subst h2
        simp only [buildToolRequest, Option.some.injEq] at hreq
        subst hreq
        refine ⟨validateString_length _ _ _ (by decide),
          validateString_length _ _ _ (by decide), ?_, Nat.zero_le _, ?_⟩
        · intro ph hph
          cases hph
        · intro o ho
          cases ho
      · by_cases h3 : name = "ask_user_buttons"
        · subst h3
          simp only [buildToolRequest, Option.some.injEq] at hreq
          subst hreq
          refine ⟨validateString_length _ _ _ (by decide),
            validateString_length _ _ _ (by decide), ?_,
            validateOptions_count _, ?_⟩
          · intro ph hph
            cases hph
          · intro o ho
            exact validateOptions_bounds _ o ho
        · rw [show buildToolRequest name args i t se = none from by
            simp [buildToolRequest, h1, h2, h3]] at hreq
          cases hreq
  · intro name args i t se hkn
    obtain ⟨tr, hb⟩ := buildToolRequest_known hkn args i t se
    rw [hb]
    rfl
  · intro s t name args timeoutSec j hr hkn
    have hr' : (advanceNow s t).serverRunning = true := hr
    simp only [step, hr', if_true]
    obtain ⟨tr, hb⟩ := buildToolRequest_known hkn args (advanceNow s t).nextId
      (advanceNow s t).now
      (if 0 < timeoutSec then (advanceNow s t).now + timeoutSec * 1000 else 0)
    obtain ⟨f1, _, _, _⟩ := handleToolCall_some j hb
    rw [show s.nextId = (advanceNow s t).nextId from rfl, f1,
      alookup_ainsert_self]
    simp

/-- C8 witness: a non-string title is replaced by the clamped default and the
call with an oversized title still proceeds; recognized tools always build. -/
theorem C8_validation_never_fails_witness :
    (validateString (JSValue.str (String.mk (List.replicate 300 'a')))
        MAX_TITLE_LENGTH "Input Required").length ≤ MAX_TITLE_LENGTH ∧
    (buildToolRequest "ask_user_confirm" noArgs 0 0 0).isSome = true ∧
    alookup 0 (step initialState
      (.toolCall 0 "ask_user_text" noArgs 120 none)).pendingRequests ≠ none :=
  ⟨(C8_validation_never_fails.1 "ask_user_text"
      { title := JSValue.str (String.mk (List.replicate 300 'a')) } 0 0 0 _ rfl).1,
   C8_validation_never_fails.2.1 "ask_user_confirm" noArgs 0 0 0 (Or.inr (Or.inl rfl)),
   C8_validation_never_fails.2.2 initialState 0 "ask_user_text" noArgs 120 none rfl
     (Or.inl rfl)⟩

/-- C9: any HTTP body whose accumulated size exceeds 1 MiB is answered 413
with the size error before any JSON parsing is attempted and with the server
state untouched (no pending entry); bodies of at most 1 MiB proceed to
parsing with the full accumulated body. -/
theorem C9_body_size_cap :
    (∀ (chunks : List String),
      (∃ k, MAX_BODY_SIZE < (joinTake chunks k).length) →
        handleMCPRequestBody chunks =
          .rejected413 (-32600) "Request body too large" ∧
        ∀ (parse : String → Option JsonRpcEnvelope) (cfg : Nat) (s : ServerState),
          handleMCPRequest parse cfg s chunks = (s, none)) ∧
    (∀ (chunks : List String),
      (joinAll chunks).length ≤ MAX_BODY_SIZE →
        handleMCPRequestBody chunks = .toParse (joinAll chunks)) := by
  constructor
  · intro chunks hex
    obtain ⟨k, hk⟩ := hex
    have habort : (receiveBody chunks).aborted = true := by
      refine receive_aux_abort chunks "" (by decide) ⟨k, ?_⟩
      simpa [String.length_append] using hk
    have hbody : handleMCPRequestBody chunks =
        .rejected413 (-32600) "Request body too large" := by
      simp [handleMCPRequestBody, habort]
    refine ⟨hbody, ?_⟩
    intro parse cfg s
    simp [handleMCPRequest, hbody]
  · intro chunks hle
    have hok : receiveBody chunks = { body := joinAll chunks, aborted := false } := by
      have := receive_aux_ok chunks "" (by simpa [String.length_append] using hle)
      simpa using this
    simp [handleMCPRequestBody, hok]

/-- C9 witness: a single chunk of 2 MiB is rejected with the 413 size error
and leaves the state untouched; a small body proceeds to parsing. -/
theorem C9_body_size_cap_witness :
    (handleMCPRequestBody [String.mk (List.replicate 2097152 'a')] =
      .rejected413 (-32600) "Request body too large" ∧
     handleMCPRequest (fun _ => none) 120 initialState
       [String.mk (List.replicate 2097152 'a')] = (initialState, none)) ∧
    handleMCPRequestBody ["tiny"] = .toParse (joinAll ["tiny"]) := by
  constructor
  · have h := C9_body_size_cap.1 [String.mk (List.replicate 2097152 'a')]
      ⟨1, by
        rw [show joinTake [String.mk (List.replicate 2097152 'a')] 1 =
            String.mk (List.replicate 2097152 'a') ++ "" from rfl]
        rw [show (String.mk (List.replicate 2097152 'a') ++ "").length =
            (String.mk (List.replicate 2097152 'a')).length + ("" : String).length from
          String.length_append _ _]
        rw [show (String.mk (List.replicate 2097152 'a')).length =
            (List.replicate 2097152 'a').length from rfl]
        rw [List.length_replicate]
        decide⟩
    exact ⟨h.1, h.2 (fun _ => none) 120 initialState⟩
  · exact C9_body_size_cap.2 ["tiny"] (by decide)

/-- C10: an envelope whose jsonrpc field is not exactly the string "2.0" is
answered with JSON-RPC error -32600 "Invalid Request" echoing the envelope's
id, with no method dispatched and no state change (hence no pending entry). -/
theorem C10_invalid_jsonrpc_rejected :
    ∀ (s : ServerState) (env : JsonRpcEnvelope) (cfg : Nat),
      env.jsonrpc ≠ JSValue.str "2.0" →
        processJsonRpc s env cfg = (s, .err env.id (-32600) "Invalid Request") := by
  intro s env cfg h
  cases henv : env.jsonrpc with
  | str v =>
      have hv : ¬ v = "2.0" := fun hc => h (by rw [henv, hc])
      simp [processJsonRpc, henv, hv]
  | num n => simp [processJsonRpc, henv]
  | boolean b => simp [processJsonRpc, henv]
  | null => simp [processJsonRpc, henv]
  | undefinedV => simp [processJsonRpc, henv]
  | arr xs => simp [processJsonRpc, henv]
  | obj fs => simp [processJsonRpc, henv]

/-- C1: each internalId is settled at most once across any event sequence
(the resolution log never repeats an id), and every settlement routine run
against an already-settled id is a no-op: a user response or a cancellation
aimed at an absent entry changes nothing, a disconnect signal is suppressed
by the once-only flag and on an absent entry resolves nothing and writes no
history, and a timer can only fire while its entry is still pending. -/
theorem C1_at_most_one_settlement :
    (∀ es : List Event,
      ((run initialState es).resolvedLog.map (fun r => r.id)).Nodup) ∧
    (∀ (s : ServerState) (i : Nat) (v : RespValue),
      alookup i s.pendingRequests = none → handleUserResponse s i v = s) ∧
    (∀ (s : ServerState) (j : JsonId) (r : Option String),
      alookup j s.jsonRpcIdToRequestId = none → handleCancellation s (some j) r = s) ∧
    (∀ (s : ServerState) (j : JsonId) (i : Nat) (r : Option String),
      alookup j s.jsonRpcIdToRequestId = some i →
      alookup i s.pendingRequests = none → handleCancellation s (some j) r = s) ∧
    (∀ (s : ServerState) (i : Nat) (src : String),
      s.disconnectFired.contains i = true → handleDisconnect s i src = s) ∧
    (∀ (s : ServerState) (i : Nat) (src : String),
      alookup i s.pendingRequests = none →
        (handleDisconnect s i src).resolvedLog = s.resolvedLog ∧
        (handleDisconnect s i src).history = s.history ∧
        (handleDisconnect s i src).pendingRequests = s.pendingRequests ∧
        (handleDisconnect s i src).jsonRpcIdToRequestId = s.jsonRpcIdToRequestId) ∧
    (∀ (s : ServerState) (t i : Nat),
      alookup i s.pendingRequests = none →
        step s (.timerFire t i) = advanceNow s t) := by
  refine ⟨?_, ?_, ?_, ?_, ?_, ?_, ?_⟩
  · intro es
    exact (invCore_run es initialState invCore_initial).resolvedNodup
  · intro s i v h
    simp [handleUserResponse, h]
  · intro s j r h
    simp [handleCancellation, h]
  · intro s j i r hj hp
    simp [handleCancellation, hj, hp]
  · intro s i src h
    have hm : i ∈ s.disconnectFired := by simpa using h
    simp [handleDisconnect, hm]
  · intro s i src h
    cases hflag : (s.disconnectFired.contains i || s.finishedResponses.contains i) with
    | true =>
        have hm : i ∈ s.disconnectFired ∨ i ∈ s.finishedResponses := by
          simpa using hflag
        rw [show handleDisconnect s i src = s from by simp [handleDisconnect, hm]]
        exact ⟨rfl, rfl, rfl, rfl⟩
    | false =>
        have hf : i ∉ s.disconnectFired ∧ i ∉ s.finishedResponses := by
          simpa using hflag
        refine ⟨?_, ?_, ?_, ?_⟩ <;>
          simp [handleDisconnect, hf.1, hf.2, h, clearIntervalFor]
  · intro s t i h
    have h' : alookup i (advanceNow s t).pendingRequests = none := h
    simp [step, h']

/-- C1 witness: concrete second-path settlements are no-ops. -/
theorem C1_at_most_one_settlement_witness :
    handleUserResponse initialState 5 (.str "x") = initialState ∧
    handleCancellation initialState (some (.num 9)) none = initialState ∧
    handleDisconnect { initialState with disconnectFired := [4] } 4 "poll" =
      { initialState with disconnectFired := [4] } ∧
    step initialState (.timerFire 3 0) = advanceNow initialState 3 :=
  ⟨C1_at_most_one_settlement.2.1 initialState 5 (.str "x") rfl,
   C1_at_most_one_settlement.2.2.1 initialState (.num 9) none rfl,
   C1_at_most_one_settlement.2.2.2.2.1
     { initialState with disconnectFired := [4] } 4 "poll" (by decide),
   C1_at_most_one_settlement.2.2.2.2.2.2 initialState 3 0 rfl⟩

/-- C2 counterexample: on a request with finite positive timeout (1000 ms),
pausing after the deadline freezes remainingTime at 0; resumeRequest then
succeeds but arms no timer at all, contrary to the claim that a successful
resume re-arms the timer with the frozen remainingTime. -/
theorem C2_counterexample :
    ((alookup 0 (run initialState [.toolCall 0 "ask_user_confirm" noArgs 1 none,
        .pauseReq 2000 0]).pendingRequests).map
      (fun p => (p.totalTimeout, p.isPaused, p.remainingTime)) =
        some (1000, true, 0)) ∧
    (resumeRequest (advanceNow (run initialState
        [.toolCall 0 "ask_user_confirm" noArgs 1 none, .pauseReq 2000 0]) 3000)
      0).1 = true ∧
    ((alookup 0 (resumeRequest (advanceNow (run initialState
        [.toolCall 0 "ask_user_confirm" noArgs 1 none, .pauseReq 2000 0]) 3000)
      0).2.pendingRequests).map (fun p => p.timeoutId)) = some none := by
  decide

/-- C2 amended: pauseRequest succeeds exactly on an existing running entry,
freezing remainingTime at max(0, remainingTime - (now - startTime)) with the
timer cancelled, and fails changing nothing otherwise; resumeRequest
succeeds exactly on a paused entry, re-arming the timer with exactly the
frozen remainingTime when that time (and the total timeout) is positive and
arming nothing otherwise, resetting startTime to now; across arbitrarily
many timely pause/resume cycles the consumed running time plus the frozen
remaining time equals the original totalTimeout — no per-cycle drift. -/
theorem C2_pause_resume :
    (∀ (s : ServerState) (id : Nat),
      alookup id s.pendingRequests = none → pauseRequest s id = (false, s)) ∧
    (∀ (s : ServerState) (id : Nat) (p : PendingRequest),
      alookup id s.pendingRequests = some p → p.isPaused = true →
        pauseRequest s id = (false, s)) ∧
    (∀ (s : ServerState) (id : Nat) (p : PendingRequest),
      alookup id s.pendingRequests = some p → p.isPaused = false →
        pauseRequest s id = (true, { s with pendingRequests := ainsert id ({ p with timeoutId := none, remainingTime := p.remainingTime - (s.now - p.startTime), isPaused := true }) s.pendingRequests })) ∧
    (∀ (s : ServerState) (id : Nat),
      alookup id s.pendingRequests = none → resumeRequest s id = (false, s)) ∧
    (∀ (s : ServerState) (id : Nat) (p : PendingRequest),
      alookup id s.pendingRequests = some p → p.isPaused = false →
        resumeRequest s id = (false, s)) ∧
    (∀ (s : ServerState) (id : Nat) (p : PendingRequest),
      alookup id s.pendingRequests = some p → p.isPaused = true →
        resumeRequest s id = (true, { s with pendingRequests := ainsert id ({ p with timeoutId := if 0 < p.remainingTime ∧ 0 < p.totalTimeout then some TimerKind.resumed else p.timeoutId, startTime := s.now, isPaused := false }) s.pendingRequests })) ∧
    (∀ (cycles : List (Nat × Nat)) (s : ServerState) (id : Nat) (p : PendingRequest),
      alookup id s.pendingRequests = some p →
      p.isPaused = false → 0 < p.totalTimeout →
      p.remainingTime = p.totalTimeout →
      s.now = p.startTime →
      timelyB p.startTime p.remainingTime cycles = true →
        ∃ p', alookup id (run s (cycleEvents id cycles)).pendingRequests = some p' ∧
          consumed p.startTime cycles + p'.remainingTime = p.totalTimeout ∧
          p'.startTime = lastResume p.startTime cycles ∧
          p'.isPaused = false) := by
  refine ⟨?_, ?_, ?_, ?_, ?_, ?_, ?_⟩
  · intro s id h
    simp [pauseRequest, h]
  · intro s id p hp hpau
    simp [pauseRequest, hp, hpau]
  · intro s id p hp hpau
    simp [pauseRequest, hp, hpau]
  · intro s id h
    simp [resumeRequest, h]
  · intro s id p hp hpau
    simp [resumeRequest, hp, hpau]
  · intro s id p hp hpau
    simp [resumeRequest, hp, hpau]
  · intro cycles s id p hp hpau htot hremtot hnow htimely
    obtain ⟨p', ha, hb, _, hd, _, hf, hg, _, _⟩ :=
      cycles_accounting cycles s id p hp hpau htot (by omega) hnow htimely
    exact ⟨p', ha, by omega, hd, hb⟩

/-- C2 witness: two timely cycles on a 10-second request leave exactly
10000 - 4000 = 6000 ms frozen, with the entry running again. -/
theorem C2_pause_resume_witness :
    ∃ p', alookup 0 (run (run initialState
        [.toolCall 0 "ask_user_confirm" noArgs 10 none])
        (cycleEvents 0 [(3000, 5000), (6000, 8000)])).pendingRequests = some p' ∧
      consumed 0 [(3000, 5000), (6000, 8000)] + p'.remainingTime = 10000 ∧
      p'.startTime = lastResume 0 [(3000, 5000), (6000, 8000)] ∧
      p'.isPaused = false :=
  C2_pause_resume.2.2.2.2.2.2 [(3000, 5000), (6000, 8000)]
    (run initialState [.toolCall 0 "ask_user_confirm" noArgs 10 none]) 0 _
    rfl rfl (by decide) rfl rfl (by decide)

/-- C3: evaluation at the failing input. A request with 10 s timeout is
paused and resumed, and its re-armed timer fires at its deadline: the entry
is removed and the call settles with the timed-out flag, but the polling
interval stays armed, the history record stays in status pending, and no UI
retraction is sent — unlike a creation-armed timer fire, which clears the
interval, sets history to timeout and retracts the UI. -/
theorem C3_resumed_fire_skips_cleanup :
    (alookup 0 (run initialState
      [.toolCall 0 "ask_user_confirm" noArgs 10 (some (.num 7)),
       .pauseReq 1000 0, .resumeReq 2000 0, .timerFire 11000 0]).pendingRequests =
      none) ∧
    ((run initialState
      [.toolCall 0 "ask_user_confirm" noArgs 10 (some (.num 7)),
       .pauseReq 1000 0, .resumeReq 2000 0, .timerFire 11000 0]).resolvedLog.map
      (fun r => (r.id, r.timedOut)) = [(0, true)]) ∧
    ((run initialState
      [.toolCall 0 "ask_user_confirm" noArgs 10 (some (.num 7)),
       .pauseReq 1000 0, .resumeReq 2000 0, .timerFire 11000 0]).intervalsArmed =
      [0]) ∧
    ((run initialState
      [.toolCall 0 "ask_user_confirm" noArgs 10 (some (.num 7)),
       .pauseReq 1000 0, .resumeReq 2000 0, .timerFire 11000 0]).history.map
      (fun e => e.status) = [HistoryStatus.pending]) ∧
    ((run initialState
      [.toolCall 0 "ask_user_confirm" noArgs 10 (some (.num 7)),
       .pauseReq 1000 0, .resumeReq 2000 0, .timerFire 11000 0]).uiCancelled = []) ∧
    ((run initialState
      [.toolCall 0 "ask_user_confirm" noArgs 10 none,
       .timerFire 10000 0]).intervalsArmed = [] ∧
     (run initialState
      [.toolCall 0 "ask_user_confirm" noArgs 10 none,
       .timerFire 10000 0]).history.map (fun e => e.status) =
        [HistoryStatus.timeout] ∧
     (run initialState
      [.toolCall 0 "ask_user_confirm" noArgs 10 none,
       .timerFire 10000 0]).uiCancelled = [(0, "Request timed out")]) := by
  decide

/-- C4 counterexample: a tools/call with an unrecognized tool name and a
JSON-RPC id registers the external-id mapping before validating the name,
leaving the translation table pointing at an internalId that was never
inserted into the pending table — a dangling cross-reference. -/
theorem C4_counterexample :
    alookup (JsonId.num 1) (run initialState
      [.toolCall 0 "bogus" noArgs 120 (some (.num 1))]).jsonRpcIdToRequestId =
      some 0 ∧
    alookup 0 (run initialState
      [.toolCall 0 "bogus" noArgs 120 (some (.num 1))]).pendingRequests = none := by
  decide

/-- C4 amended: provided every tools/call uses a recognized tool name, after
any settlement the settled id cannot be found by internal id and no
external-id mapping points at it, and at every reachable state every
external-id mapping points at a live pending entry (no dangling
cross-reference); an unknown-name tools/call with a JSON-RPC id violates
this by leaving a dangling external mapping. -/
theorem C4_index_symmetry :
    ∀ es : List Event, KnownTrace es →
      (∀ i ∈ resolvedIds (run initialState es),
        alookup i (run initialState es).pendingRequests = none ∧
        ∀ j : JsonId, (j, i) ∉ (run initialState es).jsonRpcIdToRequestId) ∧
      (∀ (j : JsonId) (i : Nat),
        (j, i) ∈ (run initialState es).jsonRpcIdToRequestId →
          alookup i (run initialState es).pendingRequests ≠ none) := by
  intro es hk
  obtain ⟨hc, hm⟩ := invBoth_run es initialState hk invCore_initial invMap_initial
  constructor
  · intro i hi
    constructor
    · rw [alookup_eq_none]
      intro hkey
      exact hc.pendingUnresolved i hkey hi
    · intro j hji
      obtain ⟨p, hp, _⟩ := hm j i hji
      exact hc.pendingUnresolved i (mem_keys_of_alookup hp) hi
  · intro j i hji
    obtain ⟨p, hp, _⟩ := hm j i hji
    rw [hp]
    simp

/-- C4 witness: after an answered call on a known-name trace, the settled id
is gone from the pending table. -/
theorem C4_index_symmetry_witness :
    alookup 0 (run initialState
      [.toolCall 0 "ask_user_text" noArgs 120 (some (.num 1)),
       .userResponse 1 0 (.str "hi")]).pendingRequests = none :=
  ((C4_index_symmetry
      [.toolCall 0 "ask_user_text" noArgs 120 (some (.num 1)),
       .userResponse 1 0 (.str "hi")]
      (by
        intro e he
        rcases List.mem_cons.1 he with rfl | he
        · exact Or.inl rfl
        · rcases List.mem_cons.1 he with rfl | he
          · trivial
          · cases he)).1 0 (by decide)).1

/-- C5 counterexample: a cancellation carrying the supplied reason "" is
settled with the default reason instead of the supplied one. -/
theorem C5_counterexample :
    (run initialState [.toolCall 0 "ask_user_text" noArgs 120 (some (.num 3)),
      .cancelNotif 1 (some (.num 3)) (some "")]).resolvedLog.map (fun r => r.error) =
      [some "Request cancelled by agent"] ∧
    ("" : String) ≠ "Request cancelled by agent" := by
  decide

/-- C5 amended: a cancellation whose external id has no mapping (including
one for an already-settled call) is dropped silently — no history write, no
resolve, both tables and the whole state unchanged (only the clock moves);
when a mapping and pending entry exist, the entry is settled as cancelled
with the supplied non-empty reason, or the default "Request cancelled by
agent" when the reason is absent or empty, and the UI is told to retract. -/
theorem C5_cancellation :
    (∀ (s : ServerState) (t : Nat) (reason : Option String),
      step s (.cancelNotif t none reason) = advanceNow s t) ∧
    (∀ (s : ServerState) (t : Nat) (j : JsonId) (r : Option String),
      alookup j s.jsonRpcIdToRequestId = none →
        step s (.cancelNotif t (some j) r) = advanceNow s t) ∧
    (∀ (s : ServerState) (t : Nat) (j : JsonId) (i : Nat) (r : Option String),
      alookup j s.jsonRpcIdToRequestId = some i →
      alookup i s.pendingRequests = none →
        step s (.cancelNotif t (some j) r) = advanceNow s t) ∧
    (∀ (s : ServerState) (j : JsonId) (i : Nat) (p : PendingRequest)
      (r : Option String),
      alookup j s.jsonRpcIdToRequestId = some i →
      alookup i s.pendingRequests = some p →
        alookup i (handleCancellation s (some j) r).pendingRequests = none ∧
        (handleCancellation s (some j) r).resolvedLog = s.resolvedLog ++
          [{ id := i, success := false, value := none,
             error := some (reasonOr r), timedOut := false }] ∧
        (handleCancellation s (some j) r).uiCancelled =
          s.uiCancelled ++ [(i, reasonOr r)] ∧
        (handleCancellation s (some j) r).history =
          updateEntryList s.history i .cancelled none (some (reasonOr r)) s.now) ∧
    (reasonOr none = "Request cancelled by agent" ∧
     reasonOr (some "") = "Request cancelled by agent" ∧
     ∀ str : String, str ≠ "" → reasonOr (some str) = str) := by
  refine ⟨?_, ?_, ?_, ?_, rfl, rfl, ?_⟩
  · intro s t reason
    rfl
  · intro s t j r h
    have h' : alookup j (advanceNow s t).jsonRpcIdToRequestId = none := h
    simp [step, handleCancellation, h']
  · intro s t j i r hj hp
    have hj' : alookup j (advanceNow s t).jsonRpcIdToRequestId = some i := hj
    have hp' : alookup i (advanceNow s t).pendingRequests = none := hp
    simp [step, handleCancellation, hj', hp']
  · intro s j i p r hj hp
    refine ⟨?_, ?_, ?_, ?_⟩ <;>
      simp [handleCancellation, hj, hp, deletePendingRequest_eq, clearIntervalFor,
        alookup_aerase_self]
  · intro str h
    simp [reasonOr, String.isEmpty_iff, h]

/-- C5 witness: an unmapped cancellation is a silent no-op; a non-empty
reason is kept verbatim. -/
theorem C5_cancellation_witness :
    step initialState (.cancelNotif 1 (some (.num 9)) (some "gone")) =
      advanceNow initialState 1 ∧
    reasonOr (some "user stopped") = "user stopped" :=
  ⟨C5_cancellation.2.1 initialState 1 (.num 9) (some "gone") rfl,
   C5_cancellation.2.2.2.2.2.2 "user stopped" (by decide)⟩

/-- C6: stopping the server while entries are pending settles every survivor
exactly once with the same "Server stopped" failure, clears their timers and
disconnect-polling intervals, and leaves both correlation tables empty. -/
theorem C6_server_stop :
    ∀ (s : ServerState) (t : Nat), Reachable s → s.serverRunning = true →
      (step s (.serverStop t)).pendingRequests = [] ∧
      (step s (.serverStop t)).jsonRpcIdToRequestId = [] ∧
      (step s (.serverStop t)).resolvedLog = s.resolvedLog ++
        s.pendingRequests.map (fun q =>
          { id := q.1, success := false, value := none,
            error := some "Server stopped", timedOut := false }) ∧
      ((step s (.serverStop t)).resolvedLog.map (fun r => r.id)).Nodup ∧
      (∀ k ∈ s.pendingRequests.map Prod.fst,
        k ∉ (step s (.serverStop t)).intervalsArmed) := by
  intro s t hreach hr
  have hr' : (advanceNow s t).serverRunning = true := hr
  obtain ⟨f1, f2, _, _, _⟩ := stopInternal_run_facts hr'
  have hstep : step s (.serverStop t) = stopInternal (advanceNow s t) := rfl
  refine ⟨?_, ?_, ?_, ?_, ?_⟩
  · rw [hstep]
    exact f1
  · rw [hstep]
    exact f2
  · rw [hstep]
    simp [stopInternal, hr, hr', advanceNow]
  · exact (invCore_step (invCore_reachable hreach) (.serverStop t)).resolvedNodup
  · intro k hk hmem
    have hlk : alookup k (advanceNow s t).pendingRequests ≠ none := by
      rw [Ne, alookup_eq_none]
      intro hc
      exact hc hk
    rw [hstep] at hmem
    simp only [stopInternal, hr', if_true] at hmem
    obtain ⟨_, hnone⟩ := List.mem_filter.1 hmem
    rw [Option.isNone_iff_eq_none] at hnone
    exact hlk hnone

/-- C6 witness (Scenario E): three pending entries, server stop settles all
three with the stopped failure and empties both tables. -/
theorem C6_server_stop_witness :
    (step (run initialState
      [.toolCall 0 "ask_user_text" noArgs 0 (some (.num 1)),
       .toolCall 0 "ask_user_confirm" noArgs 0 (some (.num 2)),
       .toolCall 0 "ask_user_buttons" noArgs 0 none])
      (.serverStop 5)).pendingRequests = [] ∧
    (step (run initialState
      [.toolCall 0 "ask_user_text" noArgs 0 (some (.num 1)),
       .toolCall 0 "ask_user_confirm" noArgs 0 (some (.num 2)),
       .toolCall 0 "ask_user_buttons" noArgs 0 none])
      (.serverStop 5)).jsonRpcIdToRequestId = [] :=
  ⟨(C6_server_stop _ 5 ⟨_, rfl⟩ (by decide)).1,
   (C6_server_stop _ 5 ⟨_, rfl⟩ (by decide)).2.1⟩

/-- A reachable pending entry with totalTimeout 0 never has an armed timer
and its remainingTime is 0. -/
theorem zero_timeout_entry {s : ServerState} (hreach : Reachable s) {i : Nat}
    {p : PendingRequest} (hp : alookup i s.pendingRequests = some p)
    (hz : p.totalTimeout = 0) : p.timeoutId = none ∧ p.remainingTime = 0 := by
  have hc := invCore_reachable hreach
  have hmem := mem_of_alookup hp
  exact ⟨hc.zeroNoTimer _ hmem hz, Nat.le_zero.1 (hz ▸ hc.remLe _ hmem)⟩

/-- C7: a request created with totalTimeout 0 never has an armed timer, so a
timer-fire event against it at any time whatsoever is a no-op (it never
settles as timed-out); pauseRequest and resumeRequest on it still succeed
and flip the paused flag, but with no timing effect: remainingTime stays 0
and no timer is armed on resume. -/
theorem C7_infinite_timeout :
    (∀ (s : ServerState), Reachable s → ∀ (i : Nat) (p : PendingRequest),
      alookup i s.pendingRequests = some p → p.totalTimeout = 0 →
        p.timeoutId = none ∧ p.remainingTime = 0) ∧
    (∀ (s : ServerState), Reachable s → ∀ (i : Nat) (p : PendingRequest) (t : Nat),
      alookup i s.pendingRequests = some p → p.totalTimeout = 0 →
        step s (.timerFire t i) = advanceNow s t) ∧
    (∀ (s : ServerState), Reachable s → ∀ (i : Nat) (p : PendingRequest),
      alookup i s.pendingRequests = some p → p.totalTimeout = 0 →
      p.isPaused = false →
        pauseRequest s i = (true, { s with pendingRequests := ainsert i ({ p with timeoutId := none, remainingTime := 0, isPaused := true }) s.pendingRequests })) ∧
    (∀ (s : ServerState), Reachable s → ∀ (i : Nat) (p : PendingRequest),
      alookup i s.pendingRequests = some p → p.totalTimeout = 0 →
      p.isPaused = true →
        resumeRequest s i = (true, { s with pendingRequests := ainsert i ({ p with timeoutId := none, startTime := s.now, isPaused := false }) s.pendingRequests })) := by
  refine ⟨?_, ?_, ?_, ?_⟩
  · intro s hreach i p hp hz
    exact zero_timeout_entry hreach hp hz
  · intro s hreach i p t hp hz
    obtain ⟨hnone, _⟩ := zero_timeout_entry hreach hp hz
    have hp' : alookup i (advanceNow s t).pendingRequests = some p := hp
    simp [step, hp', hnone]
  · intro s hreach i p hp hz hpau
    obtain ⟨hnone, hrem⟩ := zero_timeout_entry hreach hp hz
    simp [pauseRequest, hp, hpau, hrem]
  · intro s hreach i p hp hz hpau
    obtain ⟨hnone, hrem⟩ := zero_timeout_entry hreach hp hz
    simp [resumeRequest, hp, hpau, hrem, hnone]

/-- C7 witness: a zero-timeout request ignores a very late timer-fire event
and still accepts a pause. -/
theorem C7_infinite_timeout_witness :
    step (run initialState [.toolCall 0 "ask_user_text" noArgs 0 none])
      (.timerFire 999999 0) =
      advanceNow (run initialState [.toolCall 0 "ask_user_text" noArgs 0 none])
        999999 ∧
    (pauseRequest (run initialState [.toolCall 0 "ask_user_text" noArgs 0 none])
      0).1 = true := by
  refine ⟨?_, ?_⟩
  · exact C7_infinite_timeout.2.1 _ ⟨_, rfl⟩ 0 _ 999999 rfl rfl
  · rw [C7_infinite_timeout.2.2.1
      (run initialState [.toolCall 0 "ask_user_text" noArgs 0 none])
      ⟨[.toolCall 0 "ask_user_text" noArgs 0 none], rfl⟩ 0 _ rfl rfl rfl]

/-- C10 witness: a numeric jsonrpc field is rejected with -32600 echoing the
numeric id, leaving the initial state unchanged. -/
theorem C10_invalid_jsonrpc_rejected_witness :
    processJsonRpc initialState
      { jsonrpc := JSValue.num 2, id := JSValue.num 5, method := JSValue.str "tools/list" }
      120 =
    (initialState, .err (JSValue.num 5) (-32600) "Invalid Request") :=
  C10_invalid_jsonrpc_rejected initialState
    { jsonrpc := JSValue.num 2, id := JSValue.num 5, method := JSValue.str "tools/list" }
    120 (by simp)

end HITL
